import Mathlib

/-!
Verification of the backup/restore tool's core algorithms, shallowly embedded
from the C++ sources.  Bytes are modelled as `Nat` (values produced by the code
are `< 256`; arithmetic that wraps in C++ is written with explicit `% 2^w`).
Byte strings (`std::vector<uint8_t>`, `std::string` payloads) are `List Nat`.
Fallible C++ code (functions that `throw` or return `false`) is modelled with
`Option`.
-/

namespace BackupRestore

/-! ## RLE codec — `cpp_src/storage/package/compress_rle.cpp` -/

namespace pkg

/-- Length of the run of bytes equal to `b` at the head of `l`
(the scan `while (j < in.size() && in[j] == b)` of `rle_compress`, cap aside). -/
def runLen (b : Nat) : List Nat → Nat
  | [] => 0
  | c :: rest => if c = b then runLen b rest + 1 else 0

/-- `rle_compress`: emit `(count, byte)` pairs, each run capped at 255
(`(j - i) < 255` in the scan condition). -/
def rle_compress : List Nat → List Nat
  | [] => []
  | b :: rest =>
    let k := min (runLen b rest + 1) 255
    k :: b :: rle_compress (rest.drop (k - 1))
termination_by l => l.length
decreasing_by
  simp only [List.length_drop, List.length_cons]
  omega

/-- `rle_decompress`: odd-length input or a zero count byte is a corrupt
stream (`throw` in the C++, `none` here). -/
def rle_decompress : List Nat → Option (List Nat)
  | [] => some []
  | [_] => none
  | c :: b :: rest =>
    if c = 0 then none
    else (rle_decompress rest).map (fun t => List.replicate c b ++ t)

/-- The count bytes of an RLE stream: every first element of each 2-byte pair. -/
def pairCounts : List Nat → List Nat
  | c :: _ :: rest => c :: pairCounts rest
  | _ => []

lemma take_of_le_runLen (b : Nat) :
    ∀ (l : List Nat) (n : Nat), n ≤ runLen b l → l.take n = List.replicate n b := by
  intro l
  induction l with
  | nil =>
    intro n hn
    simp only [runLen, Nat.le_zero] at hn
    subst hn
    simp
  | cons c rest ih =>
    intro n hn
    cases n with
    | zero => simp
    | succ m =>
      simp only [runLen] at hn
      by_cases hc : c = b
      · subst hc
        simp at hn
        have := ih m (by omega)
        simp [List.take, this, List.replicate]
      · simp only [if_neg hc] at hn
        omega

lemma rle_compress_cons (b : Nat) (rest : List Nat) :
    rle_compress (b :: rest) =
      (min (runLen b rest + 1) 255) :: b ::
        rle_compress (rest.drop (min (runLen b rest + 1) 255 - 1)) := by
  rw [rle_compress]

/-- C5 core: decompress ∘ compress = identity. -/
theorem rle_decompress_compress (l : List Nat) :
    rle_decompress (rle_compress l) = some l := by
  cases l with
  | nil => simp [rle_compress, rle_decompress]
  | cons b rest =>
    rw [rle_compress_cons]
    set k := min (runLen b rest + 1) 255 with hk
    have hk1 : 1 ≤ k := by simp [hk]
    have hkrun : k - 1 ≤ runLen b rest := by
      have : k ≤ runLen b rest + 1 := min_le_left _ _
      omega
    rw [rle_decompress, if_neg (by omega)]
    rw [rle_decompress_compress (rest.drop (k - 1))]
    simp only [Option.map_some']
    congr 1
    have htake := take_of_le_runLen b rest (k - 1) hkrun
    have hrep : List.replicate k b = b :: List.replicate (k - 1) b := by
      cases hkk : k with
      | zero => omega
      | succ m => simp [List.replicate]
    rw [hrep, ← htake, List.cons_append, List.take_append_drop]
termination_by l.length
decreasing_by
  simp only [List.length_drop, List.length_cons]
  omega

/-- C5 core: every count byte emitted is in `[1, 255]`. -/
theorem rle_compress_counts (l : List Nat) :
    ∀ c ∈ pairCounts (rle_compress l), 1 ≤ c ∧ c ≤ 255 := by
  cases l with
  | nil => simp [rle_compress, pairCounts]
  | cons b rest =>
    rw [rle_compress_cons]
    set k := min (runLen b rest + 1) 255 with hk
    intro c hc
    rw [pairCounts] at hc
    rcases List.mem_cons.mp hc with h | h
    · subst h
      refine ⟨?_, ?_⟩ <;> simp [hk]
    · exact rle_compress_counts (rest.drop (k - 1)) c h
termination_by l.length
decreasing_by
  simp only [List.length_drop, List.length_cons]
  omega

/-! ## XOR/xorshift cipher — `src/storage/package/encrypt_xor.cpp` -/

/-- One FNV-1a update step on a 32-bit state: `h ^= byte; h *= 16777619`. -/
def fnv_step (h b : Nat) : Nat := ((h ^^^ (b % 256)) * 16777619) % 2 ^ 32

/-- `fnv1a32(password, salt)`. -/
def fnv1a32 (password salt : List Nat) : Nat :=
  salt.foldl fnv_step (password.foldl fnv_step 2166136261)

/-- `next_byte`'s state update: `x ^= x<<13; x ^= x>>17; x ^= x<<5;` on `uint32_t`. -/
def xorshift_step (x : Nat) : Nat :=
  let x1 := (x ^^^ (x <<< 13)) % 2 ^ 32
  let x2 := x1 ^^^ (x1 >>> 17)
  (x2 ^^^ (x2 <<< 5)) % 2 ^ 32

/-- The keystream loop of `xor_crypt`: advance the state, XOR the low byte in. -/
def xor_crypt_aux (x : Nat) : List Nat → List Nat
  | [] => []
  | b :: rest =>
    let x' := xorshift_step x
    (b ^^^ (x' % 256)) :: xor_crypt_aux x' rest

/-- `xor_crypt(in, password, salt)`. -/
def xor_crypt (inp password salt : List Nat) : List Nat :=
  xor_crypt_aux (fnv1a32 password salt) inp

lemma xor_crypt_aux_involution : ∀ (l : List Nat) (x : Nat),
    xor_crypt_aux x (xor_crypt_aux x l) = l := by
  intro l
  induction l with
  | nil => intro x; rfl
  | cons b rest ih =>
    intro x
    simp only [xor_crypt_aux]
    rw [ih]
    congr 1
    rw [Nat.xor_assoc, Nat.xor_self, Nat.xor_zero]

/-! ## RC4 cipher — `cpp_src/storage/package/encrypt_rc4.cpp` -/

/-- `std::swap(S[a], S[b])` on a list, reading both originals first. -/
def swapL (S : List Nat) (a b : Nat) : List Nat :=
  let va := S.getD a 0
  let vb := S.getD b 0
  (S.set a vb).set b va

/-- `make_key`: password bytes followed by salt; an empty key becomes `[0]`. -/
def make_key (password salt : List Nat) : List Nat :=
  let k := password ++ salt
  if k.isEmpty then [0] else k

/-- The KSA loop: `j = (j + S[i] + key[i % key.size()]) & 0xFF; swap(S[i], S[j])`. -/
def ksa (key : List Nat) : List Nat :=
  ((List.range 256).foldl
    (fun p i =>
      let j := (p.2 + p.1.getD i 0 + key.getD (i % key.length) 0) % 256
      (swapL p.1 i j, j))
    (List.range 256, 0)).1

/-- The PRGA loop of `rc4_crypt`; the keystream byte is independent of the data. -/
def prga : List Nat → Nat → Nat → List Nat → List Nat
  | _, _, _, [] => []
  | S, i, j, b :: rest =>
    let i' := (i + 1) % 256
    let j' := (j + S.getD i' 0) % 256
    let S' := swapL S i' j'
    let rnd := S'.getD ((S'.getD i' 0 + S'.getD j' 0) % 256) 0
    (b ^^^ rnd) :: prga S' i' j' rest

/-- `rc4_crypt(in, password, salt)`. -/
def rc4_crypt (inp password salt : List Nat) : List Nat :=
  prga (ksa (make_key password salt)) 0 0 inp

lemma prga_involution : ∀ (l : List Nat) (S : List Nat) (i j : Nat),
    prga S i j (prga S i j l) = l := by
  intro l
  induction l with
  | nil => intro S i j; rfl
  | cons b rest ih =>
    intro S i j
    simp only [prga]
    rw [ih]
    congr 1
    rw [Nat.xor_assoc, Nat.xor_self, Nat.xor_zero]

end pkg

/-! ## File types — `src/metadata/filesystem.h` / `filesystem.cpp` -/

/-- `FilesystemUtils::FileType`. -/
inductive FileType where
  | Regular
  | Directory
  | Symlink
  | Fifo
  | BlockDevice
  | CharacterDevice
  | Socket
deriving DecidableEq, Repr

/-- `FilesystemUtils::isBackupSupported` — the `switch` lists `Regular`,
`Directory`, `Symlink` as `true`, `default` is `false` (both source variants
agree on this set). -/
def isBackupSupported : FileType → Bool
  | .Regular => true
  | .Directory => true
  | .Symlink => true
  | _ => false

/-! ## Metadata — `src/metadata/metadata.h` / `metadata.cpp`

Strings (`std::string`) are byte lists; `':'` is 58, `'0'` is 48, `'1'` is 49,
`'-'` is 45. -/

/-- `Metadata` record. `mode`, `uid`, `gid` are `uint32_t` (values `< 2^32` in
the program); `mtime` is the signed 64-bit `time_t`. -/
structure Metadata where
  mode : Nat := 0
  mtime : Int := 0
  uid : Nat := 0
  gid : Nat := 0
  is_symlink : Bool := false
  symlink_target : List Nat := []
  file_type : FileType := .Regular
  dev_major : Nat := 0
  dev_minor : Nat := 0
deriving DecidableEq, Repr

/-- Decimal rendering of an unsigned value, as `ostringstream <<` produces it
(most-significant digit first, `"0"` for zero). -/
def natDec (n : Nat) : List Nat :=
  if n = 0 then [48] else ((Nat.digits 10 n).map (· + 48)).reverse

/-- Decimal rendering of a signed value (leading `'-'` when negative). -/
def intDec (i : Int) : List Nat :=
  if i < 0 then 45 :: natDec i.natAbs else natDec i.toNat

/-- `Metadata::serialize`:
`"<mode>:<mtime>:<uid>:<gid>:<0|1>:<symlink_target>"`. -/
def Metadata.serialize (m : Metadata) : List Nat :=
  natDec m.mode ++ [58] ++ intDec m.mtime ++ [58] ++ natDec m.uid ++ [58] ++
    natDec m.gid ++ [58] ++ (if m.is_symlink then [49] else [48]) ++ [58] ++
    m.symlink_target

/-- `data.find(':', start)` / `substr` pair: split a string at its first
colon; `none` when there is no colon (`npos`). -/
def splitColon : List Nat → Option (List Nat × List Nat)
  | [] => none
  | c :: rest =>
    if c = 58 then some ([], rest)
    else (splitColon rest).map (fun p => (c :: p.1, p.2))

/-- The five `find(':')`/`substr` iterations of `Metadata::deserialize`:
fields 0–4 and the remainder (field 5). -/
def split5 (data : List Nat) :
    Option (List Nat × List Nat × List Nat × List Nat × List Nat × List Nat) := do
  let (f0, r0) ← splitColon data
  let (f1, r1) ← splitColon r0
  let (f2, r2) ← splitColon r1
  let (f3, r3) ← splitColon r2
  let (f4, f5) ← splitColon r3
  pure (f0, f1, f2, f3, f4, f5)

/-- `isspace` for the default locale. -/
def isSpaceB (c : Nat) : Bool := c = 32 || (9 ≤ c && c ≤ 13)

/-- `isdigit`. -/
def isDigitB (c : Nat) : Bool := 48 ≤ c && c ≤ 57

/-- Value of a run of decimal digit characters, most-significant first. -/
def digitsVal (l : List Nat) : Nat :=
  l.foldl (fun a c => a * 10 + (c - 48)) 0

/-- `strtol`-family digit scan: a maximal non-empty run of decimal digits;
`none` when the run is empty (`std::invalid_argument`). -/
def scanDigits (neg : Bool) (l : List Nat) : Option (Bool × Nat) :=
  let digs := l.takeWhile isDigitB
  if digs.isEmpty then none else some (neg, digitsVal digs)

/-- `strtol`-family optional sign. -/
def scanSign : List Nat → Option (Bool × Nat)
  | [] => none
  | 45 :: rest => scanDigits true rest
  | 43 :: rest => scanDigits false rest
  | l => scanDigits false l

/-- Common `strtol`-family scan: skip whitespace, optional sign, then a
maximal non-empty run of decimal digits; yields the sign and the digit-run
value. -/
def scanInt (l : List Nat) : Option (Bool × Nat) :=
  scanSign (l.dropWhile isSpaceB)

/-- `std::stoul` on a 64-bit `unsigned long`: out-of-range digit strings throw
(`none`); a minus sign wraps the value in unsigned arithmetic. -/
def stoulModel (l : List Nat) : Option Nat := do
  let (neg, v) ← scanInt l
  if v ≥ 2 ^ 64 then none
  else pure (if neg then (2 ^ 64 - v) % 2 ^ 64 else v)

/-- `std::stoll` on a signed 64-bit `long long`. -/
def stollModel (l : List Nat) : Option Int := do
  let (neg, v) ← scanInt l
  if neg then
    if v ≤ 2 ^ 63 then pure (-(v : Int)) else none
  else
    if v ≤ 2 ^ 63 - 1 then pure (v : Int) else none

/-- `std::stoi` on a signed 32-bit `int`. -/
def stoiModel (l : List Nat) : Option Int := do
  let (neg, v) ← scanInt l
  if neg then
    if v ≤ 2 ^ 31 then pure (-(v : Int)) else none
  else
    if v ≤ 2 ^ 31 - 1 then pure (v : Int) else none

/-- `Metadata::deserialize`: split on the first five colons, parse the numeric
fields with the `stoX` family (any exception ⇒ `false`), require the fifth
field's value to be 0 or 1, keep the remainder as `symlink_target`.  Fields
not assigned by the function (notably `file_type`) keep their prior values. -/
def Metadata.deserialize (m : Metadata) (data : List Nat) : Option Metadata := do
  let (f0, f1, f2, f3, f4, f5) ← split5 data
  let modeV ← stoulModel f0
  let mtimeV ← stollModel f1
  let uidV ← stoulModel f2
  let gidV ← stoulModel f3
  let s ← stoiModel f4
  if s ≠ 0 ∧ s ≠ 1 then none
  else
    pure { m with
      mode := modeV % 2 ^ 32
      mtime := mtimeV
      uid := uidV % 2 ^ 32
      gid := gidV % 2 ^ 32
      is_symlink := s = 1
      symlink_target := f5 }

/-! ### Metadata round-trip lemmas -/

lemma takeWhile_all {p : Nat → Bool} :
    ∀ l : List Nat, (∀ c ∈ l, p c = true) → l.takeWhile p = l := by
  intro l h
  induction l with
  | nil => rfl
  | cons c t ih =>
    rw [List.takeWhile_cons, if_pos (h c (List.mem_cons_self _ _))]
    rw [ih (fun x hx => h x (List.mem_cons_of_mem _ hx))]

lemma splitColon_append (f rest : List Nat) (hf : ∀ c ∈ f, c ≠ 58) :
    splitColon (f ++ 58 :: rest) = some (f, rest) := by
  induction f with
  | nil => simp [splitColon]
  | cons c t ih =>
    have hc : c ≠ 58 := hf c (List.mem_cons_self _ _)
    simp [splitColon, hc, ih (fun x hx => hf x (List.mem_cons_of_mem _ hx))]

lemma natDec_ne_nil (n : Nat) : natDec n ≠ [] := by
  unfold natDec
  split
  · simp
  · simp [Nat.digits_ne_nil_iff_ne_zero, *]

lemma natDec_digits (n : Nat) : ∀ c ∈ natDec n, 48 ≤ c ∧ c ≤ 57 := by
  unfold natDec
  split
  · simp
  · intro c hc
    simp only [List.mem_reverse, List.mem_map] at hc
    obtain ⟨d, hd, rfl⟩ := hc
    have : d < 10 := Nat.digits_lt_base (by norm_num) hd
    omega

lemma foldl_rev_ofDigits :
    ∀ (ds : List Nat) (a : Nat),
      List.foldl (fun a d => a * 10 + d) a ds.reverse =
        a * 10 ^ ds.length + Nat.ofDigits 10 ds := by
  intro ds
  induction ds with
  | nil => intro a; simp [Nat.ofDigits]
  | cons d t ih =>
    intro a
    rw [List.reverse_cons, List.foldl_append, ih]
    simp only [List.foldl, Nat.ofDigits_cons, List.length_cons, pow_succ]
    ring

lemma digitsVal_natDec (n : Nat) : digitsVal (natDec n) = n := by
  unfold natDec
  split
  · simp [digitsVal, *]
  · unfold digitsVal
    rw [← List.map_reverse, List.foldl_map]
    simp only [show ∀ c : Nat, c + 48 - 48 = c from fun c => by omega]
    rw [foldl_rev_ofDigits, Nat.ofDigits_digits]
    simp

lemma scanSign_digit (c : Nat) (t : List Nat) (hc : 48 ≤ c ∧ c ≤ 57) :
    scanSign (c :: t) = scanDigits false (c :: t) := by
  obtain ⟨h1, h2⟩ := hc
  interval_cases c <;> rfl

lemma scanInt_digits (l : List Nat) (hne : l ≠ [])
    (hd : ∀ c ∈ l, 48 ≤ c ∧ c ≤ 57) :
    scanInt l = some (false, digitsVal l) := by
  cases l with
  | nil => exact absurd rfl hne
  | cons c t =>
    have hc := hd c (List.mem_cons_self _ _)
    have hdrop : (c :: t).dropWhile isSpaceB = c :: t := by
      rw [List.dropWhile_cons, if_neg]
      simp only [isSpaceB, Bool.or_eq_true, decide_eq_true_eq, Bool.and_eq_true]
      omega
    unfold scanInt
    rw [hdrop, scanSign_digit c t hc]
    unfold scanDigits
    have htake : (c :: t).takeWhile isDigitB = c :: t := by
      apply takeWhile_all
      intro x hx
      have := hd x hx
      simp only [isDigitB, Bool.and_eq_true, decide_eq_true_eq]
      omega
    rw [htake]
    simp

lemma stoulModel_natDec (n : Nat) (h : n < 2 ^ 64) : stoulModel (natDec n) = some n := by
  unfold stoulModel
  rw [scanInt_digits _ (natDec_ne_nil n) (natDec_digits n)]
  rw [digitsVal_natDec]
  simp only [Option.bind_eq_bind, Option.some_bind]
  rw [if_neg (by omega)]
  rfl

lemma intDec_digits (i : Int) : ∀ c ∈ intDec i, (48 ≤ c ∧ c ≤ 57) ∨ c = 45 := by
  unfold intDec
  split
  · intro c hc
    rcases List.mem_cons.mp hc with h | h
    · right; exact h
    · left; exact natDec_digits _ c h
  · intro c hc
    left; exact natDec_digits _ c hc

lemma stollModel_intDec (i : Int) (h1 : -(2 ^ 63) ≤ i) (h2 : i < 2 ^ 63) :
    stollModel (intDec i) = some i := by
  unfold stollModel intDec
  split
  · rename_i hneg
    have hscan : scanInt (45 :: natDec i.natAbs) = some (true, digitsVal (natDec i.natAbs)) := by
      unfold scanInt
      have hdrop : (45 :: natDec i.natAbs).dropWhile isSpaceB = 45 :: natDec i.natAbs := by
        rw [List.dropWhile_cons, if_neg]
        simp [isSpaceB]
      rw [hdrop]
      show scanDigits true (natDec i.natAbs) = _
      unfold scanDigits
      rw [takeWhile_all _ (fun x hx => by
        have := natDec_digits _ x hx
        simp only [isDigitB, Bool.and_eq_true, decide_eq_true_eq]
        omega)]
      simp [List.isEmpty_iff, natDec_ne_nil]
    rw [hscan]
    rw [digitsVal_natDec]
    have hle : i.natAbs ≤ 2 ^ 63 := by omega
    simp only [Option.bind_eq_bind, Option.some_bind, if_pos hle, if_true]
    simp only [Option.pure_def, Option.some.injEq]
    omega
  · rename_i hneg
    push_neg at hneg
    rw [scanInt_digits _ (natDec_ne_nil _) (natDec_digits _), digitsVal_natDec]
    have hle : i.toNat ≤ 2 ^ 63 - 1 := by omega
    simp only [Option.bind_eq_bind, Option.some_bind, Bool.false_eq_true, if_false, if_pos hle]
    simp only [Option.pure_def, Option.some.injEq]
    omega

lemma natDec_ne_colon (n : Nat) : ∀ c ∈ natDec n, c ≠ 58 := by
  intro c hc
  have := natDec_digits n c hc
  omega

lemma intDec_ne_colon (i : Int) : ∀ c ∈ intDec i, c ≠ 58 := by
  intro c hc
  rcases intDec_digits i c hc with h | h <;> omega

lemma serialize_split5 (m : Metadata) :
    split5 m.serialize =
      some (natDec m.mode, intDec m.mtime, natDec m.uid, natDec m.gid,
        (if m.is_symlink then [49] else [48]), m.symlink_target) := by
  unfold Metadata.serialize split5
  have hsym : ∀ c ∈ (if m.is_symlink then [49] else [48] : List Nat), c ≠ 58 := by
    split <;> simp
  simp only [List.cons_append, List.append_assoc, List.singleton_append, List.nil_append]
  rw [splitColon_append _ _ (natDec_ne_colon _)]
  simp only [Option.bind_eq_bind, Option.some_bind]
  rw [splitColon_append _ _ (intDec_ne_colon _)]
  simp only [Option.some_bind]
  rw [splitColon_append _ _ (natDec_ne_colon _)]
  simp only [Option.some_bind]
  rw [splitColon_append _ _ (natDec_ne_colon _)]
  simp only [Option.some_bind]
  rw [splitColon_append _ _ hsym]
  simp

/-- Core C2 result: on a serialized record, `deserialize` succeeds and
restores exactly the six serialized fields, leaving the rest of the target
record (in particular `file_type`) untouched. -/
lemma deserialize_serialize (m₀ m : Metadata)
    (hmode : m.mode < 2 ^ 32) (huid : m.uid < 2 ^ 32) (hgid : m.gid < 2 ^ 32)
    (hmt1 : -(2 ^ 63) ≤ m.mtime) (hmt2 : m.mtime < 2 ^ 63) :
    Metadata.deserialize m₀ m.serialize =
      some { m₀ with
        mode := m.mode, mtime := m.mtime, uid := m.uid, gid := m.gid,
        is_symlink := m.is_symlink, symlink_target := m.symlink_target } := by
  unfold Metadata.deserialize
  rw [serialize_split5]
  simp only [Option.bind_eq_bind, Option.some_bind]
  rw [stoulModel_natDec _ (by omega), stollModel_intDec _ hmt1 hmt2,
    stoulModel_natDec _ (by omega), stoulModel_natDec _ (by omega)]
  simp only [Option.some_bind]
  cases hs : m.is_symlink
  · have h0 : stoiModel [48] = some 0 := by decide
    simp only [if_false, Bool.false_eq_true]
    rw [h0]
    simp only [Option.some_bind]
    rw [if_neg (by simp)]
    simp only [Option.pure_def, Option.some.injEq]
    rw [Nat.mod_eq_of_lt hmode, Nat.mod_eq_of_lt huid, Nat.mod_eq_of_lt hgid]
    simp [hs]
  · have h1 : stoiModel [49] = some 1 := by decide
    simp only [if_true]
    rw [h1]
    simp only [Option.some_bind]
    rw [if_neg (by simp)]
    simp only [Option.pure_def, Option.some.injEq]
    rw [Nat.mod_eq_of_lt hmode, Nat.mod_eq_of_lt huid, Nat.mod_eq_of_lt hgid]
    simp [hs]

/-- Remainder of a string after dropping through `n` colons (`none` when there
are fewer than `n` colons). -/
def afterColons : Nat → List Nat → Option (List Nat)
  | 0, l => some l
  | n + 1, l => (splitColon l).bind (fun p => afterColons n p.2)

lemma split5_afterColons (data : List Nat) :
    afterColons 5 data = (split5 data).map (fun t => t.2.2.2.2.2) := by
  unfold split5
  show afterColons 5 data = _
  cases h0 : splitColon data with
  | none => simp [afterColons, h0]
  | some p0 =>
    cases h1 : splitColon p0.2 with
    | none => simp [afterColons, h0, h1]
    | some p1 =>
      cases h2 : splitColon p1.2 with
      | none => simp [afterColons, h0, h1, h2]
      | some p2 =>
        cases h3 : splitColon p2.2 with
        | none => simp [afterColons, h0, h1, h2, h3]
        | some p3 =>
          cases h4 : splitColon p3.2 with
          | none => simp [afterColons, h0, h1, h2, h3, h4]
          | some p4 => simp [afterColons, h0, h1, h2, h3, h4]

/-- `deserialize` never assigns `file_type` and stores the remainder after the
fifth colon as `symlink_target`. -/
lemma deserialize_shape (m₀ : Metadata) (data : List Nat) (m' : Metadata)
    (h : Metadata.deserialize m₀ data = some m') :
    m'.file_type = m₀.file_type ∧ afterColons 5 data = some m'.symlink_target ∧
      m'.dev_major = m₀.dev_major ∧ m'.dev_minor = m₀.dev_minor := by
  unfold Metadata.deserialize at h
  cases h5 : split5 data with
  | none => rw [h5] at h; simp at h
  | some fs =>
    rw [h5] at h
    obtain ⟨f0, f1, f2, f3, f4, f5⟩ := fs
    simp only [Option.bind_eq_bind, Option.some_bind] at h
    cases hst0 : stoulModel f0 with
    | none => rw [hst0] at h; simp at h
    | some v0 =>
      rw [hst0] at h
      cases hst1 : stollModel f1 with
      | none => rw [hst1] at h; simp at h
      | some v1 =>
        rw [hst1] at h
        cases hst2 : stoulModel f2 with
        | none => rw [hst2] at h; simp at h
        | some v2 =>
          rw [hst2] at h
          cases hst3 : stoulModel f3 with
          | none => rw [hst3] at h; simp at h
          | some v3 =>
            rw [hst3] at h
            cases hst4 : stoiModel f4 with
            | none => rw [hst4] at h; simp at h
            | some s =>
              rw [hst4] at h
              simp only [Option.some_bind] at h
              by_cases hcond : s ≠ 0 ∧ s ≠ 1
              · rw [if_pos hcond] at h; simp at h
              · rw [if_neg hcond] at h
                simp only [Option.pure_def, Option.some.injEq] at h
                subst h
                refine ⟨rfl, ?_, rfl, rfl⟩
                rw [split5_afterColons, h5]
                rfl

/-- `deserialize` fails on every input with fewer than five colons. -/
lemma deserialize_too_few_colons (m₀ : Metadata) (data : List Nat)
    (h : afterColons 5 data = none) : Metadata.deserialize m₀ data = none := by
  unfold Metadata.deserialize
  rw [split5_afterColons] at h
  cases h5 : split5 data with
  | none => simp
  | some fs => rw [h5] at h; simp at h

/-! ## Repository index — `src/core/repository.cpp` / `repository.h`

`index_` is a `std::map<std::filesystem::path, Metadata>`: an ordered map
whose iteration order is ascending key order.  `std::filesystem::path`
compares element-wise: the path is decomposed into its components and the
component sequences are compared lexicographically, each component as a
string.  Keys here are the walk's relative paths (no root, no duplicate
separators), whose components are the '/'-separated segments (47 is '/'). -/

/-- Strict byte-lexicographic order on one path component. -/
def bytesLt : List Nat → List Nat → Bool
  | [], [] => false
  | [], _ :: _ => true
  | _ :: _, [] => false
  | x :: xs, y :: ys => if x < y then true else if y < x then false else bytesLt xs ys

/-- The component sequence of a relative path: split at each '/' byte. -/
def splitSlash : List Nat → List (List Nat)
  | [] => [[]]
  | c :: rest =>
    if c = 47 then [] :: splitSlash rest
    else
      match splitSlash rest with
      | [] => [[c]]
      | comp :: comps => (c :: comp) :: comps

/-- Strict lexicographic order on component sequences. -/
def compsLt : List (List Nat) → List (List Nat) → Bool
  | [], [] => false
  | [], _ :: _ => true
  | _ :: _, [] => false
  | x :: xs, y :: ys =>
    if bytesLt x y then true else if bytesLt y x then false else compsLt xs ys

/-- `std::map`'s key order on paths: compare the component sequences
(`std::filesystem::path::compare` iterates path elements). -/
def keyLt (a b : List Nat) : Bool := compsLt (splitSlash a) (splitSlash b)

/-- `index_[relative_path] = metadata` on the ordered map: overwrite an equal
key in place, otherwise insert in ascending key order. -/
def mapInsert (l : List (List Nat × Metadata)) (k : List Nat) (v : Metadata) :
    List (List Nat × Metadata) :=
  match l with
  | [] => [(k, v)]
  | (k', v') :: rest =>
    if keyLt k k' then (k, v) :: (k', v') :: rest
    else if keyLt k' k then (k', v') :: mapInsert rest k v
    else (k, v) :: rest

/-- `Repository::saveIndex`: one `path \t serialized_metadata` line per
in-memory entry, in the map's iteration order (9 is the tab byte). -/
def saveIndex (l : List (List Nat × Metadata)) : List (List Nat) :=
  l.map (fun p => p.1 ++ 9 :: Metadata.serialize p.2)

lemma bytesLt_eq_of_not_lt :
    ∀ (a b : List Nat), bytesLt a b = false → bytesLt b a = false → a = b := by
  intro a
  induction a with
  | nil =>
    intro b h1 _
    cases b with
    | nil => rfl
    | cons y ys => simp [bytesLt] at h1
  | cons x xs ih =>
    intro b h1 h2
    cases b with
    | nil => simp [bytesLt] at h2
    | cons y ys =>
      rw [bytesLt] at h1 h2
      by_cases hxy : x < y
      · rw [if_pos hxy] at h1; simp at h1
      · by_cases hyx : y < x
        · rw [if_pos hyx] at h2; simp at h2
        · rw [if_neg hxy, if_neg hyx] at h1
          rw [if_neg hyx, if_neg hxy] at h2
          have hx : x = y := by omega
          rw [hx, ih ys h1 h2]

lemma compsLt_eq_of_not_lt :
    ∀ (A B : List (List Nat)), compsLt A B = false → compsLt B A = false → A = B := by
  intro A
  induction A with
  | nil =>
    intro B h1 _
    cases B with
    | nil => rfl
    | cons y ys => simp [compsLt] at h1
  | cons x xs ih =>
    intro B h1 h2
    cases B with
    | nil => simp [compsLt] at h2
    | cons y ys =>
      rw [compsLt] at h1 h2
      by_cases hxy : bytesLt x y = true
      · rw [if_pos hxy] at h1; simp at h1
      · by_cases hyx : bytesLt y x = true
        · rw [if_pos hyx] at h2; simp at h2
        · rw [if_neg hxy, if_neg hyx] at h1
          rw [if_neg hyx, if_neg hxy] at h2
          have hx : x = y :=
            bytesLt_eq_of_not_lt x y (by simpa using hxy) (by simpa using hyx)
          rw [hx, ih ys h1 h2]

lemma splitSlash_ne_nil : ∀ l : List Nat, splitSlash l ≠ [] := by
  intro l
  cases l with
  | nil => simp [splitSlash]
  | cons c rest =>
    rw [splitSlash]
    split
    · simp
    · split <;> simp

/-- Rejoining the components with '/' recovers the path, so the component
split is injective. -/
def joinSlash : List (List Nat) → List Nat
  | [] => []
  | [x] => x
  | x :: xs => x ++ 47 :: joinSlash xs

lemma joinSlash_splitSlash : ∀ l : List Nat, joinSlash (splitSlash l) = l := by
  intro l
  induction l with
  | nil => rfl
  | cons c rest ih =>
    rw [splitSlash]
    by_cases hc : c = 47
    · rw [if_pos hc, hc]
      cases hsr : splitSlash rest with
      | nil => exact absurd hsr (splitSlash_ne_nil rest)
      | cons s ss =>
        rw [hsr] at ih
        show ([] : List Nat) ++ 47 :: joinSlash (s :: ss) = 47 :: rest
        rw [List.nil_append]
        exact congrArg (fun t => 47 :: t) ih
    · rw [if_neg hc]
      cases hsr : splitSlash rest with
      | nil => exact absurd hsr (splitSlash_ne_nil rest)
      | cons comp comps =>
        rw [hsr] at ih
        cases comps with
        | nil =>
          show c :: comp = c :: rest
          exact congrArg (fun t => c :: t) ih
        | cons c2 cs =>
          show (c :: comp) ++ 47 :: joinSlash (c2 :: cs) = c :: rest
          rw [List.cons_append]
          exact congrArg (fun t => c :: t) ih

lemma keyLt_eq_of_not_lt (a b : List Nat)
    (h1 : keyLt a b = false) (h2 : keyLt b a = false) : a = b := by
  rw [← joinSlash_splitSlash a, ← joinSlash_splitSlash b,
    compsLt_eq_of_not_lt (splitSlash a) (splitSlash b) h1 h2]

/-- Keys of `mapInsert l k v` are `k` or keys of `l`. -/
lemma mapInsert_head (l : List (List Nat × Metadata)) (k : List Nat) (v : Metadata) :
    (mapInsert l k v).head? = some (k, v) ∨ (mapInsert l k v).head? = l.head? := by
  cases l with
  | nil => left; rfl
  | cons p rest =>
    obtain ⟨k', v'⟩ := p
    rw [mapInsert]
    by_cases h1 : keyLt k k'
    · left; rw [if_pos h1]; rfl
    · rw [if_neg h1]
      by_cases h2 : keyLt k' k
      · right; rw [if_pos h2]; rfl
      · left; rw [if_neg h2]; rfl

/-- Sorted insertion preserves the ascending-key chain. -/
lemma chain'_mapInsert (l : List (List Nat × Metadata)) (k : List Nat) (v : Metadata)
    (h : List.Chain' (fun a b => keyLt a.1 b.1 = true) l) :
    List.Chain' (fun a b => keyLt a.1 b.1 = true) (mapInsert l k v) := by
  induction l with
  | nil => simp [mapInsert]
  | cons p rest ih =>
    obtain ⟨k', v'⟩ := p
    rw [List.chain'_cons'] at h
    obtain ⟨hhead, hrest⟩ := h
    rw [mapInsert]
    by_cases h1 : keyLt k k'
    · rw [if_pos h1]
      rw [List.chain'_cons']
      refine ⟨?_, ?_⟩
      · intro b hb; simp at hb; subst hb; exact h1
      · rw [List.chain'_cons']; exact ⟨hhead, hrest⟩
    · rw [if_neg h1]
      by_cases h2 : keyLt k' k
      · rw [if_pos h2]
        rw [List.chain'_cons']
        refine ⟨?_, ih hrest⟩
        intro b hb
        rcases mapInsert_head rest k v with hh | hh
        · rw [hh] at hb
          simp at hb; subst hb; exact h2
        · rw [hh] at hb
          exact hhead b hb
      · rw [if_neg h2]
        have hk : k = k' := keyLt_eq_of_not_lt k k'
          (Bool.not_eq_true _ ▸ (by simpa using h1))
          (Bool.not_eq_true _ ▸ (by simpa using h2))
        rw [List.chain'_cons']
        refine ⟨?_, hrest⟩
        intro b hb
        rw [hk]
        exact hhead b hb

/-- Every index reachable from the empty map by a sequence of
`index_[k] = v` writes is in ascending key order. -/
lemma foldl_mapInsert_chain' (ops : List (List Nat × Metadata)) :
    ∀ l, List.Chain' (fun a b => keyLt a.1 b.1 = true) l →
      List.Chain' (fun a b => keyLt a.1 b.1 = true)
        (ops.foldl (fun acc p => mapInsert acc p.1 p.2) l) := by
  induction ops with
  | nil => intro l h; exact h
  | cons op rest ih =>
    intro l h
    exact ih _ (chain'_mapInsert l op.1 op.2 h)

/-! ## Repository store — both `Repository::storeFile` variants -/

/-- Observable effect of one `storeFile` call: the updated in-memory index,
the body copies performed into `data/`, and the returned boolean. -/
structure StoreEffect where
  index : List (List Nat × Metadata)
  bodyCopies : List (List Nat × List Nat)
  ok : Bool
deriving DecidableEq, Repr

/-- `Repository::getStoragePath`: `data_dir_ / relative_path` (`"data/"` is
bytes 100,97,116,97,47). -/
def getStoragePath (rel : List Nat) : List Nat := [100, 97, 116, 97, 47] ++ rel

/-- `Repository::storeFile`, `src/src/core/repository.cpp` variant: the index
is written first; symlinks (by `file_type` or the `is_symlink` flag) and
non-regular types get no body copy and return `true`; regular files are
copied into `data/` and return the copy's outcome.  Parent-directory creation
(`FileUtils::createDirectories`) touches no body file and is assumed to
succeed here. -/
def storeFile (idx : List (List Nat × Metadata)) (source rel : List Nat)
    (meta : Metadata) (copyOk : Bool) : StoreEffect :=
  let idx' := mapInsert idx rel meta
  if meta.file_type = .Symlink ∨ meta.is_symlink then
    ⟨idx', [], true⟩
  else if meta.file_type = .Regular then
    ⟨idx', [(source, getStoragePath rel)], copyOk⟩
  else
    ⟨idx', [], true⟩

/-- `Repository::storeFile`, `backup_restore_project/cpp_src` variant: regular
files AND symlinks are copied into `data/` (`case Regular: case Symlink:
copy_ok = FileUtils::copyFile(...)`), and the index is updated only after a
successful copy. -/
def storeFile_v2 (idx : List (List Nat × Metadata)) (source rel : List Nat)
    (meta : Metadata) (copyOk : Bool) : StoreEffect :=
  match meta.file_type with
  | .Regular | .Symlink =>
    if copyOk then ⟨mapInsert idx rel meta, [(source, getStoragePath rel)], true⟩
    else ⟨idx, [(source, getStoragePath rel)], false⟩
  | _ => ⟨mapInsert idx rel meta, [], true⟩

/-! ## Path filter — `src/filters/path_filter.cpp`

`matchesPattern` reads `pattern.back()` with no emptiness check; calling it
on an empty pattern is undefined behaviour, modelled as `none`. -/

/-- `PathFilter::matchesPattern`. -/
def matchesPattern (path pattern : List Nat) : Option Bool :=
  match pattern.getLast? with
  | none => none
  | some last =>
    if last = 47 then
      some (decide (pattern.dropLast <+: path))
    else
      some (decide (path = pattern ∨ pattern <:+: path))

/-- One pattern loop of `shouldInclude`: first match wins; an undefined
`matchesPattern` call makes the whole decision undefined. -/
def anyMatch (path : List Nat) : List (List Nat) → Option Bool
  | [] => some false
  | p :: rest => do
    let b ← matchesPattern path p
    if b then pure true else anyMatch path rest

/-- `PathFilter::shouldInclude`. -/
def shouldInclude (includes excludes : List (List Nat)) (path : List Nat) :
    Option Bool :=
  if includes.isEmpty && excludes.isEmpty then some true
  else do
    let exc ← anyMatch path excludes
    if exc then pure false
    else if includes.isEmpty then pure true
    else anyMatch path includes

lemma matchesPattern_total (path pattern : List Nat) (h : pattern ≠ []) :
    (matchesPattern path pattern).isSome := by
  unfold matchesPattern
  cases hlast : pattern.getLast? with
  | none =>
    exfalso
    cases pattern with
    | nil => exact h rfl
    | cons c t => rw [List.getLast?_eq_none_iff] at hlast; exact absurd hlast (by simp)
  | some last =>
    split
    · simp_all
    · split <;> rfl

lemma anyMatch_total (path : List Nat) :
    ∀ pats : List (List Nat), (∀ p ∈ pats, p ≠ []) → (anyMatch path pats).isSome := by
  intro pats
  induction pats with
  | nil => intro _; rfl
  | cons p rest ih =>
    intro h
    rw [anyMatch]
    have hp := matchesPattern_total path p (h p (List.mem_cons_self _ _))
    cases hm : matchesPattern path p with
    | none => rw [hm] at hp; exact absurd hp (by simp)
    | some b =>
      simp only [Option.bind_eq_bind, Option.some_bind]
      cases b with
      | true => rfl
      | false =>
        simp only [Bool.false_eq_true, if_false]
        exact ih (fun q hq => h q (List.mem_cons_of_mem _ hq))

namespace pkg

/-! ## Binary I/O primitives — `cpp_src/storage/package/binary_io.h`

A stream is a byte list; reads are positional (`seekg`/`tellg` use absolute
offsets from the start of the package file). -/

/-- `write_le<T>`: `sizeof(T)` bytes, least significant first. -/
def w_le : Nat → Nat → List Nat
  | 0, _ => []
  | w + 1, v => v % 256 :: w_le w (v / 256)

/-- `write_u8`. -/
def w_u8 (v : Nat) : List Nat := w_le 1 v

/-- `write_string`: `u32` length prefix, then the raw bytes. -/
def w_string (s : List Nat) : List Nat := w_le 4 s.length ++ s

/-- Little-endian value of a byte list (each byte read through `uint8_t`). -/
def decLE : List Nat → Nat
  | [] => 0
  | b :: bs => b % 256 + 256 * decLE bs

/-- `read_le<T>` at an absolute position: `sizeof(T)` bytes or EOF. -/
def r_le (data : List Nat) (pos w : Nat) : Option (Nat × Nat) :=
  if pos + w ≤ data.length then some (decLE ((data.drop pos).take w), pos + w) else none

/-- `read_bytes` at an absolute position: exactly `n` bytes or failure. -/
def r_bytes (data : List Nat) (pos n : Nat) : Option (List Nat × Nat) :=
  if pos + n ≤ data.length then some ((data.drop pos).take n, pos + n) else none

/-- `read_string`: `u32` length, then the bytes. -/
def r_string (data : List Nat) (pos : Nat) : Option (List Nat × Nat) := do
  let (n, p1) ← r_le data pos 4
  r_bytes data p1 n

lemma w_le_length (w v : Nat) : (w_le w v).length = w := by
  induction w generalizing v with
  | zero => rfl
  | succ n ih => simp [w_le, ih]

lemma decLE_w_le (w v : Nat) : decLE (w_le w v) = v % 256 ^ w := by
  induction w generalizing v with
  | zero => simp [w_le, decLE, Nat.mod_one]
  | succ n ih =>
    rw [w_le, decLE, ih]
    rw [Nat.mod_mod_of_dvd v (dvd_refl 256)]
    rw [show (256 : Nat) ^ (n + 1) = 256 * 256 ^ n by ring, Nat.mod_mul]

lemma r_le_at (data pre post : List Nat) (w v pos : Nat)
    (hdata : data = pre ++ (w_le w v ++ post)) (hpos : pos = pre.length) :
    r_le data pos w = some (v % 256 ^ w, pos + w) := by
  subst hdata hpos
  unfold r_le
  rw [if_pos (by simp only [List.length_append, w_le_length]; omega)]
  rw [List.drop_left, List.take_left' (w_le_length w v), decLE_w_le]

lemma r_bytes_at (data pre mid post : List Nat) (pos n : Nat)
    (hdata : data = pre ++ (mid ++ post)) (hpos : pos = pre.length)
    (hn : n = mid.length) :
    r_bytes data pos n = some (mid, pos + n) := by
  subst hdata hpos hn
  unfold r_bytes
  rw [if_pos (by simp only [List.length_append]; omega)]
  rw [List.drop_left, List.take_left]

lemma r_string_at (data pre s post : List Nat) (pos : Nat)
    (hdata : data = pre ++ (w_string s ++ post)) (hpos : pos = pre.length)
    (hs : s.length < 2 ^ 32) :
    r_string data pos = some (s, pos + 4 + s.length) := by
  unfold r_string w_string at *
  rw [r_le_at data pre (s ++ post) 4 s.length pos (by simp [hdata]) hpos]
  simp only [Option.bind_eq_bind, Option.some_bind]
  rw [Nat.mod_eq_of_lt (by norm_num at hs ⊢; omega)]
  rw [r_bytes_at data (pre ++ w_le 4 s.length) s post (pos + 4) s.length
    (by simp [hdata]) (by simp [hpos, w_le_length]) rfl]

/-! ## Package codec — `cpp_src/storage/package/package_export.cpp`,
`pack_header.cpp`, `pack_toc.cpp`, `algorithms.h` -/

/-- `pkg::PackAlg`. -/
inductive PackAlg where
  | HeaderPerFile
  | TocAtEnd
deriving DecidableEq, Repr

/-- The `uint8_t` cast of a `PackAlg` value. -/
def PackAlg.tag : PackAlg → Nat
  | .HeaderPerFile => 1
  | .TocAtEnd => 2

/-- `pkg::CompressAlg`. -/
inductive CompressAlg where
  | None
  | RLE
deriving DecidableEq, Repr

/-- The `uint8_t` cast of a `CompressAlg` value. -/
def CompressAlg.tag : CompressAlg → Nat
  | .None => 0
  | .RLE => 1

/-- `pkg::EncryptAlg`. -/
inductive EncryptAlg where
  | None
  | XOR
  | RC4
deriving DecidableEq, Repr

/-- The `uint8_t` cast of an `EncryptAlg` value. -/
def EncryptAlg.tag : EncryptAlg → Nat
  | .None => 0
  | .XOR => 1
  | .RC4 => 2

/-- `pkg::Options` (the password is a byte string). -/
structure Options where
  packAlg : PackAlg := .HeaderPerFile
  compressAlg : CompressAlg := .None
  encryptAlg : EncryptAlg := .None
  password : List Nat := []

/-- `pkg::Entry`. -/
structure Entry where
  relPath : List Nat
  payload : List Nat
  originalSize : Nat
deriving DecidableEq, Repr

/-- `apply_compress`. -/
def apply_compress (alg : CompressAlg) (x : List Nat) : List Nat :=
  if alg = .RLE then rle_compress x else x

/-- `apply_encrypt` (also `apply_decrypt`: both ciphers are symmetric). -/
def apply_encrypt (alg : EncryptAlg) (pw salt x : List Nat) : List Nat :=
  if alg = .XOR then xor_crypt x pw salt
  else if alg = .RC4 then rc4_crypt x pw salt
  else x

/-- `apply_decrypt` on the raw tag byte read back from the package header. -/
def apply_decrypt_tag (encTag : Nat) (pw salt x : List Nat) : List Nat :=
  if encTag = 1 then xor_crypt x pw salt
  else if encTag = 2 then rc4_crypt x pw salt
  else x

/-- `apply_decompress` on the raw tag byte read back from the header. -/
def apply_decompress_tag (compTag : Nat) (x : List Nat) : Option (List Nat) :=
  if compTag = 1 then rle_decompress x else some x

/-- The entry list built by `export_repo_to_package` from the repository's
regular files: per file, the payload is compress-then-encrypt of its bytes. -/
def mkEntries (opts : Options) (salt : List Nat)
    (repo : List (List Nat × List Nat)) : List Entry :=
  repo.map (fun pr =>
    { relPath := pr.1
      originalSize := pr.2.length
      payload := apply_encrypt opts.encryptAlg opts.password salt
        (apply_compress opts.compressAlg pr.2) })

/-- The bytes of one `pack_header_write` entry:
`path + originalSize + storedSize + data`. -/
def entryBytes (e : Entry) : List Nat :=
  w_string e.relPath ++ w_le 8 e.originalSize ++ w_le 8 e.payload.length ++ e.payload

/-- `pack_header_write`: `u32 count`, then the entries back to back. -/
def pack_header_write (entries : List Entry) : List Nat :=
  w_le 4 entries.length ++ (entries.map entryBytes).flatten

/-- `TocItem` as written/read by `pack_toc_write` / `pack_toc_read`. -/
structure TocItem where
  relPath : List Nat
  originalSize : Nat
  offset : Nat
  storedSize : Nat
deriving DecidableEq, Repr

/-- The TOC entries recorded while writing blobs from stream position
`startPos` (`local[i].offset = os.tellp()`). -/
def toc_items (startPos : Nat) : List Entry → List TocItem
  | [] => []
  | e :: rest =>
    ⟨e.relPath, e.originalSize, startPos, e.payload.length⟩ ::
      toc_items (startPos + e.payload.length) rest

/-- The bytes of one TOC record. -/
def tocItemBytes (t : TocItem) : List Nat :=
  w_string t.relPath ++ w_le 8 t.originalSize ++ w_le 8 t.offset ++ w_le 8 t.storedSize

/-- "TOC1". -/
def TOC_MAGIC : List Nat := [84, 79, 67, 49]

/-- The trailing TOC block: magic, `u32 count`, the records. -/
def toc_block (items : List TocItem) : List Nat :=
  TOC_MAGIC ++ w_le 4 items.length ++ (items.map tocItemBytes).flatten

/-- `pack_toc_write` starting at stream position `startPos`: all payload blobs
back to back, the TOC block, then the `u64` offset of the TOC block. -/
def pack_toc_write (startPos : Nat) (entries : List Entry) : List Nat :=
  let blobs := (entries.map Entry.payload).flatten
  let tocOffset := startPos + blobs.length
  blobs ++ toc_block (toc_items startPos entries) ++ w_le 8 tocOffset

/-- "SEXP01". -/
def MAGIC : List Nat := [83, 69, 88, 80, 48, 49]

/-- The package file header: magic, version 1, the three algorithm tags,
`u32` salt length, salt bytes. -/
def headerBytes (opts : Options) (salt : List Nat) : List Nat :=
  MAGIC ++ w_u8 1 ++ w_u8 opts.packAlg.tag ++ w_u8 opts.compressAlg.tag ++
    w_u8 opts.encryptAlg.tag ++ w_le 4 salt.length ++ salt

/-- `export_repo_to_package` on an abstract repository (the list of regular
files found by the directory walk, as relative-path/content pairs), with the
generated salt a parameter.  Throws (`none`) when encryption is enabled with
an empty password. -/
def export_repo_to_package (repo : List (List Nat × List Nat)) (opts : Options)
    (salt : List Nat) : Option (List Nat) :=
  if opts.encryptAlg ≠ .None ∧ opts.password = [] then none
  else
    some (headerBytes opts salt ++
      (if opts.packAlg = .HeaderPerFile then pack_header_write (mkEntries opts salt repo)
       else pack_toc_write (headerBytes opts salt).length (mkEntries opts salt repo)))

/-- `pack_header_read`'s entry loop. -/
def read_entries (data : List Nat) : Nat → Nat → Option (List Entry × Nat)
  | pos, 0 => some ([], pos)
  | pos, n + 1 => do
    let (p, p1) ← r_string data pos
    let (orig, p2) ← r_le data p1 8
    let (stored, p3) ← r_le data p2 8
    let (payload, p4) ← r_bytes data p3 stored
    let (rest, p5) ← read_entries data p4 n
    pure (⟨p, payload, orig⟩ :: rest, p5)

/-- `pack_toc_read`'s TOC-record loop. -/
def read_toc_items (data : List Nat) : Nat → Nat → Option (List TocItem × Nat)
  | pos, 0 => some ([], pos)
  | pos, n + 1 => do
    let (p, p1) ← r_string data pos
    let (orig, p2) ← r_le data p1 8
    let (off, p3) ← r_le data p2 8
    let (stored, p4) ← r_le data p3 8
    let (rest, p5) ← read_toc_items data p4 n
    pure (⟨p, orig, off, stored⟩ :: rest, p5)

/-- `pack_toc_read`'s blob loop: seek to each record's offset and read its
stored bytes. -/
def read_blobs (data : List Nat) : List TocItem → Option (List (List Nat))
  | [] => some []
  | t :: rest => do
    let (blob, _) ← r_bytes data t.offset t.storedSize
    let bs ← read_blobs data rest
    pure (blob :: bs)

/-- `pack_toc_read`: last 8 bytes give the TOC offset; validate the TOC
magic, parse the records, then fetch every blob. -/
def pack_toc_read (data : List Nat) : Option (List TocItem × List (List Nat)) :=
  if data.length < 8 then none
  else do
    let (tocOffset, _) ← r_le data (data.length - 8) 8
    let (magic, p1) ← r_bytes data tocOffset 4
    if magic ≠ TOC_MAGIC then none
    else do
      let (n, p2) ← r_le data p1 4
      let (items, _) ← read_toc_items data p2 n
      let blobs ← read_blobs data items
      pure (items, blobs)

/-- The decrypt-then-decompress loop of the HeaderPerFile import path. -/
def decodeEntries (compTag encTag : Nat) (pw salt : List Nat) :
    List Entry → Option (List (List Nat × List Nat))
  | [] => some []
  | e :: rest => do
    let raw ← apply_decompress_tag compTag (apply_decrypt_tag encTag pw salt e.payload)
    let rs ← decodeEntries compTag encTag pw salt rest
    pure ((e.relPath, raw) :: rs)

/-- The decrypt-then-decompress loop of the TocAtEnd import path
(`blobs[i]` paired with `toc[i]`). -/
def decodeToc (compTag encTag : Nat) (pw salt : List Nat) :
    List TocItem → List (List Nat) → Option (List (List Nat × List Nat))
  | [], _ => some []
  | t :: irest, b :: brest => do
    let raw ← apply_decompress_tag compTag (apply_decrypt_tag encTag pw salt b)
    let rs ← decodeToc compTag encTag pw salt irest brest
    pure ((t.relPath, raw) :: rs)
  | _ :: _, [] => none

/-- `import_package_to_repo` on a package byte string: the returned list is
the sequence of `(rel_path, raw bytes)` files written into the target
repository directory. -/
def import_package_to_repo (data : List Nat) (password : List Nat) :
    Option (List (List Nat × List Nat)) := do
  let (magic, p0) ← r_bytes data 0 6
  if magic ≠ MAGIC then none
  else do
    let (_ver, p1) ← r_le data p0 1
    let (packTag, p2) ← r_le data p1 1
    let (compTag, p3) ← r_le data p2 1
    let (encTag, p4) ← r_le data p3 1
    let (saltLen, p5) ← r_le data p4 4
    let (salt, p6) ← r_bytes data p5 saltLen
    if encTag ≠ 0 ∧ password = [] then none
    else if packTag = 1 then do
      let (n, p7) ← r_le data p6 4
      let (entries, _) ← read_entries data p7 n
      decodeEntries compTag encTag password salt entries
    else do
      let (items, blobs) ← pack_toc_read data
      decodeToc compTag encTag password salt items blobs

/-! ### Package round-trip lemmas -/

lemma apply_decrypt_tag_encrypt (e : EncryptAlg) (pw salt x : List Nat) :
    apply_decrypt_tag e.tag pw salt (apply_encrypt e pw salt x) = x := by
  cases e <;>
    simp [apply_decrypt_tag, apply_encrypt, EncryptAlg.tag, xor_crypt, rc4_crypt,
      xor_crypt_aux_involution, prga_involution]

lemma decode_payload (c : CompressAlg) (e : EncryptAlg) (pw salt raw : List Nat) :
    apply_decompress_tag c.tag
      (apply_decrypt_tag e.tag pw salt (apply_encrypt e pw salt (apply_compress c raw))) =
    some raw := by
  rw [apply_decrypt_tag_encrypt]
  cases c <;>
    simp [apply_compress, apply_decompress_tag, CompressAlg.tag, rle_decompress_compress]

lemma decodeEntries_mkEntries (opts : Options) (salt : List Nat)
    (repo : List (List Nat × List Nat)) :
    decodeEntries opts.compressAlg.tag opts.encryptAlg.tag opts.password salt
      (mkEntries opts salt repo) = some repo := by
  induction repo with
  | nil => rfl
  | cons pr rest ih =>
    rw [mkEntries, List.map_cons, decodeEntries]
    rw [show (mkEntries opts salt rest) = List.map _ rest from rfl] at ih
    simp only [decode_payload, Option.bind_eq_bind, Option.some_bind, ih]
    rfl

lemma decodeToc_mkEntries (opts : Options) (salt : List Nat) (startPos : Nat)
    (repo : List (List Nat × List Nat)) :
    decodeToc opts.compressAlg.tag opts.encryptAlg.tag opts.password salt
      (toc_items startPos (mkEntries opts salt repo))
      ((mkEntries opts salt repo).map Entry.payload) = some repo := by
  induction repo generalizing startPos with
  | nil => rfl
  | cons pr rest ih =>
    rw [mkEntries, List.map_cons, toc_items, List.map_cons, decodeToc]
    rw [show (mkEntries opts salt rest) = List.map _ rest from rfl] at ih
    simp only [decode_payload, Option.bind_eq_bind, Option.some_bind, ih]
    rfl

lemma mkEntries_length (opts : Options) (salt : List Nat)
    (repo : List (List Nat × List Nat)) :
    (mkEntries opts salt repo).length = repo.length := by
  simp [mkEntries]

lemma toc_items_length (es : List Entry) :
    ∀ s, (toc_items s es).length = es.length := by
  induction es with
  | nil => intro s; rfl
  | cons e rest ih => intro s; simp [toc_items, ih]

lemma blobs_length (es : List Entry) :
    ((es.map Entry.payload).flatten).length = (es.map (fun e => e.payload.length)).sum := by
  rw [List.length_flatten, List.map_map]
  rfl

lemma read_entries_at (es : List Entry) :
    ∀ (data pre post : List Nat) (pos : Nat),
      data = pre ++ ((es.map entryBytes).flatten ++ post) →
      pos = pre.length →
      (∀ e ∈ es, e.relPath.length < 2 ^ 32) →
      (∀ e ∈ es, e.originalSize < 2 ^ 64) →
      (∀ e ∈ es, e.payload.length < 2 ^ 64) →
      read_entries data pos es.length =
        some (es, pos + ((es.map entryBytes).flatten).length) := by
  induction es with
  | nil =>
    intro data pre post pos _ _ _ _ _
    simp [read_entries]
  | cons e rest ih =>
    intro data pre post pos hdata hpos hp ho hs
    have hpe := hp e (List.mem_cons_self _ _)
    have hoe := ho e (List.mem_cons_self _ _)
    have hse := hs e (List.mem_cons_self _ _)
    simp only [List.length_cons]
    rw [read_entries]
    rw [r_string_at data pre e.relPath
      (w_le 8 e.originalSize ++ (w_le 8 e.payload.length ++ (e.payload ++
        ((rest.map entryBytes).flatten ++ post)))) pos
      (by simp only [hdata, List.map_cons, List.flatten_cons, entryBytes,
        List.append_assoc]) hpos hpe]
    simp only [Option.bind_eq_bind, Option.some_bind]
    rw [r_le_at data (pre ++ w_string e.relPath)
      (w_le 8 e.payload.length ++ (e.payload ++ ((rest.map entryBytes).flatten ++ post)))
      8 e.originalSize (pos + 4 + e.relPath.length)
      (by simp only [hdata, List.map_cons, List.flatten_cons, entryBytes,
        List.append_assoc])
      (by simp only [List.length_append, w_string, w_le_length]; omega)]
    simp only [Option.some_bind]
    rw [Nat.mod_eq_of_lt (by norm_num at hoe ⊢; omega)]
    rw [r_le_at data (pre ++ w_string e.relPath ++ w_le 8 e.originalSize)
      (e.payload ++ ((rest.map entryBytes).flatten ++ post))
      8 e.payload.length (pos + 4 + e.relPath.length + 8)
      (by simp only [hdata, List.map_cons, List.flatten_cons, entryBytes,
        List.append_assoc])
      (by simp only [List.length_append, w_string, w_le_length]; omega)]
    simp only [Option.some_bind]
    rw [Nat.mod_eq_of_lt (by norm_num at hse ⊢; omega)]
    rw [r_bytes_at data
      (pre ++ w_string e.relPath ++ w_le 8 e.originalSize ++ w_le 8 e.payload.length)
      e.payload ((rest.map entryBytes).flatten ++ post)
      (pos + 4 + e.relPath.length + 8 + 8) e.payload.length
      (by simp only [hdata, List.map_cons, List.flatten_cons, entryBytes,
        List.append_assoc])
      (by simp only [List.length_append, w_string, w_le_length]; omega) rfl]
    simp only [Option.some_bind]
    rw [ih data
      (pre ++ w_string e.relPath ++ w_le 8 e.originalSize ++ w_le 8 e.payload.length
        ++ e.payload) post
      (pos + 4 + e.relPath.length + 8 + 8 + e.payload.length)
      (by simp only [hdata, List.map_cons, List.flatten_cons, entryBytes,
        List.append_assoc])
      (by simp only [List.length_append, w_string, w_le_length]; omega)
      (fun x hx => hp x (List.mem_cons_of_mem _ hx))
      (fun x hx => ho x (List.mem_cons_of_mem _ hx))
      (fun x hx => hs x (List.mem_cons_of_mem _ hx))]
    simp only [Option.some_bind, Option.pure_def, Option.some.injEq, Prod.mk.injEq]
    constructor
    · trivial
    · simp only [List.map_cons, List.flatten_cons, List.length_append, entryBytes,
        w_string, w_le_length]
      omega

lemma read_toc_items_at (its : List TocItem) :
    ∀ (data pre post : List Nat) (pos : Nat),
      data = pre ++ ((its.map tocItemBytes).flatten ++ post) →
      pos = pre.length →
      (∀ t ∈ its, t.relPath.length < 2 ^ 32 ∧ t.originalSize < 2 ^ 64 ∧
        t.offset < 2 ^ 64 ∧ t.storedSize < 2 ^ 64) →
      read_toc_items data pos its.length =
        some (its, pos + ((its.map tocItemBytes).flatten).length) := by
  induction its with
  | nil =>
    intro data pre post pos _ _ _
    simp [read_toc_items]
  | cons t rest ih =>
    intro data pre post pos hdata hpos hb
    obtain ⟨hpt, hot, hft, hst⟩ := hb t (List.mem_cons_self _ _)
    simp only [List.length_cons]
    rw [read_toc_items]
    rw [r_string_at data pre t.relPath
      (w_le 8 t.originalSize ++ (w_le 8 t.offset ++ (w_le 8 t.storedSize ++
        ((rest.map tocItemBytes).flatten ++ post)))) pos
      (by simp only [hdata, List.map_cons, List.flatten_cons, tocItemBytes,
        List.append_assoc]) hpos hpt]
    simp only [Option.bind_eq_bind, Option.some_bind]
    rw [r_le_at data (pre ++ w_string t.relPath)
      (w_le 8 t.offset ++ (w_le 8 t.storedSize ++ ((rest.map tocItemBytes).flatten ++ post)))
      8 t.originalSize (pos + 4 + t.relPath.length)
      (by simp only [hdata, List.map_cons, List.flatten_cons, tocItemBytes,
        List.append_assoc])
      (by simp only [List.length_append, w_string, w_le_length]; omega)]
    simp only [Option.some_bind]
    rw [Nat.mod_eq_of_lt (by norm_num at hot ⊢; omega)]
    rw [r_le_at data (pre ++ w_string t.relPath ++ w_le 8 t.originalSize)
      (w_le 8 t.storedSize ++ ((rest.map tocItemBytes).flatten ++ post))
      8 t.offset (pos + 4 + t.relPath.length + 8)
      (by simp only [hdata, List.map_cons, List.flatten_cons, tocItemBytes,
        List.append_assoc])
      (by simp only [List.length_append, w_string, w_le_length]; omega)]
    simp only [Option.some_bind]
    rw [Nat.mod_eq_of_lt (by norm_num at hft ⊢; omega)]
    rw [r_le_at data (pre ++ w_string t.relPath ++ w_le 8 t.originalSize ++ w_le 8 t.offset)
      ((rest.map tocItemBytes).flatten ++ post)
      8 t.storedSize (pos + 4 + t.relPath.length + 8 + 8)
      (by simp only [hdata, List.map_cons, List.flatten_cons, tocItemBytes,
        List.append_assoc])
      (by simp only [List.length_append, w_string, w_le_length]; omega)]
    simp only [Option.some_bind]
    rw [Nat.mod_eq_of_lt (by norm_num at hst ⊢; omega)]
    rw [ih data
      (pre ++ w_string t.relPath ++ w_le 8 t.originalSize ++ w_le 8 t.offset
        ++ w_le 8 t.storedSize) post
      (pos + 4 + t.relPath.length + 8 + 8 + 8)
      (by simp only [hdata, List.map_cons, List.flatten_cons, tocItemBytes,
        List.append_assoc])
      (by simp only [List.length_append, w_string, w_le_length]; omega)
      (fun x hx => hb x (List.mem_cons_of_mem _ hx))]
    simp only [Option.some_bind, Option.pure_def, Option.some.injEq, Prod.mk.injEq]
    constructor
    · trivial
    · simp only [List.map_cons, List.flatten_cons, List.length_append, tocItemBytes,
        w_string, w_le_length]
      omega

lemma read_blobs_at (es : List Entry) :
    ∀ (data pre post : List Nat) (startPos : Nat),
      data = pre ++ ((es.map Entry.payload).flatten ++ post) →
      startPos = pre.length →
      read_blobs data (toc_items startPos es) = some (es.map Entry.payload) := by
  induction es with
  | nil =>
    intro data pre post startPos _ _
    rfl
  | cons e rest ih =>
    intro data pre post startPos hdata hpos
    rw [toc_items, read_blobs]
    rw [r_bytes_at data pre e.payload ((rest.map Entry.payload).flatten ++ post)
      startPos e.payload.length
      (by simp only [hdata, List.map_cons, List.flatten_cons, List.append_assoc])
      hpos rfl]
    simp only [Option.bind_eq_bind, Option.some_bind]
    rw [ih data (pre ++ e.payload) post (startPos + e.payload.length)
      (by simp only [hdata, List.map_cons, List.flatten_cons, List.append_assoc])
      (by simp only [List.length_append]; omega)]
    rfl

lemma headerBytes_length (opts : Options) (salt : List Nat) :
    (headerBytes opts salt).length = 14 + salt.length := by
  simp [headerBytes, MAGIC, w_u8, w_le_length]
  omega

lemma toc_items_mem (es : List Entry) :
    ∀ (s : Nat) (t : TocItem), t ∈ toc_items s es →
      (∃ e ∈ es, t.relPath = e.relPath ∧ t.originalSize = e.originalSize ∧
        t.storedSize = e.payload.length) ∧
      t.offset + t.storedSize ≤ s + (es.map (fun e => e.payload.length)).sum := by
  induction es with
  | nil => intro s t ht; simp [toc_items] at ht
  | cons e rest ih =>
    intro s t ht
    rw [toc_items] at ht
    rcases List.mem_cons.mp ht with h | h
    · subst h
      refine ⟨⟨e, List.mem_cons_self _ _, rfl, rfl, rfl⟩, ?_⟩
      simp only [List.map_cons, List.sum_cons]
      omega
    · obtain ⟨⟨e', he', h1, h2, h3⟩, hoff⟩ := ih (s + e.payload.length) t h
      refine ⟨⟨e', List.mem_cons_of_mem _ he', h1, h2, h3⟩, ?_⟩
      simp only [List.map_cons, List.sum_cons]
      omega

/-- The HeaderPerFile import path undoes the HeaderPerFile export body. -/
lemma import_header_branch (repo : List (List Nat × List Nat)) (opts : Options)
    (salt : List Nat)
    (hpack : opts.packAlg = .HeaderPerFile)
    (hencNe : ¬(opts.encryptAlg.tag ≠ 0 ∧ opts.password = []))
    (hsalt : salt.length < 2 ^ 32)
    (hcount : repo.length < 2 ^ 32)
    (hpaths : ∀ pr ∈ repo, pr.1.length < 2 ^ 32)
    (hraw : ∀ pr ∈ repo, pr.2.length < 2 ^ 64)
    (hEs : ∀ e ∈ mkEntries opts salt repo, e.payload.length < 2 ^ 64) :
    import_package_to_repo
      (headerBytes opts salt ++ pack_header_write (mkEntries opts salt repo))
      opts.password = some repo := by
  have hEp : ∀ e ∈ mkEntries opts salt repo, e.relPath.length < 2 ^ 32 := by
    intro e he
    rw [mkEntries] at he
    obtain ⟨pr, hpr, rfl⟩ := List.mem_map.mp he
    exact hpaths pr hpr
  have hEo : ∀ e ∈ mkEntries opts salt repo, e.originalSize < 2 ^ 64 := by
    intro e he
    rw [mkEntries] at he
    obtain ⟨pr, hpr, rfl⟩ := List.mem_map.mp he
    exact hraw pr hpr
  have hElen : (mkEntries opts salt repo).length = repo.length := mkEntries_length _ _ _
  have htagC : opts.compressAlg.tag % 256 = opts.compressAlg.tag :=
    Nat.mod_eq_of_lt (by cases opts.compressAlg <;> simp [CompressAlg.tag])
  have htagEn : opts.encryptAlg.tag % 256 = opts.encryptAlg.tag :=
    Nat.mod_eq_of_lt (by cases opts.encryptAlg <;> simp [EncryptAlg.tag])
  have h1 : r_bytes (headerBytes opts salt ++ pack_header_write (mkEntries opts salt repo))
      0 6 = some (MAGIC, 6) := by
    simpa using r_bytes_at (headerBytes opts salt ++ pack_header_write (mkEntries opts salt repo)) [] MAGIC
      (w_u8 1 ++ (w_u8 1 ++ (w_u8 opts.compressAlg.tag ++ (w_u8 opts.encryptAlg.tag ++
        (w_le 4 salt.length ++ (salt ++ pack_header_write (mkEntries opts salt repo)))))))
      0 6
      (by simp [headerBytes, hpack, PackAlg.tag, List.append_assoc])
      rfl (by simp [MAGIC])
  have h2 : r_le (headerBytes opts salt ++ pack_header_write (mkEntries opts salt repo))
      6 1 = some (1, 7) := by
    simpa using r_le_at (headerBytes opts salt ++ pack_header_write (mkEntries opts salt repo)) MAGIC
      (w_u8 1 ++ (w_u8 opts.compressAlg.tag ++ (w_u8 opts.encryptAlg.tag ++
        (w_le 4 salt.length ++ (salt ++ pack_header_write (mkEntries opts salt repo))))))
      1 1 6
      (by simp [headerBytes, hpack, PackAlg.tag, w_u8, List.append_assoc])
      (by simp [MAGIC])
  have h3 : r_le (headerBytes opts salt ++ pack_header_write (mkEntries opts salt repo))
      7 1 = some (1, 8) := by
    simpa using r_le_at (headerBytes opts salt ++ pack_header_write (mkEntries opts salt repo)) (MAGIC ++ w_u8 1)
      (w_u8 opts.compressAlg.tag ++ (w_u8 opts.encryptAlg.tag ++
        (w_le 4 salt.length ++ (salt ++ pack_header_write (mkEntries opts salt repo)))))
      1 1 7
      (by simp [headerBytes, hpack, PackAlg.tag, w_u8, List.append_assoc])
      (by simp [MAGIC, w_u8, w_le_length])
  have h4 : r_le (headerBytes opts salt ++ pack_header_write (mkEntries opts salt repo))
      8 1 = some (opts.compressAlg.tag, 9) := by
    simpa [htagC] using r_le_at (headerBytes opts salt ++ pack_header_write (mkEntries opts salt repo)) (MAGIC ++ w_u8 1 ++ w_u8 1)
      (w_u8 opts.encryptAlg.tag ++
        (w_le 4 salt.length ++ (salt ++ pack_header_write (mkEntries opts salt repo))))
      1 opts.compressAlg.tag 8
      (by simp [headerBytes, hpack, PackAlg.tag, w_u8, List.append_assoc])
      (by simp [MAGIC, w_u8, w_le_length])
  have h5 : r_le (headerBytes opts salt ++ pack_header_write (mkEntries opts salt repo))
      9 1 = some (opts.encryptAlg.tag, 10) := by
    simpa [htagEn] using r_le_at (headerBytes opts salt ++ pack_header_write (mkEntries opts salt repo)) (MAGIC ++ w_u8 1 ++ w_u8 1 ++ w_u8 opts.compressAlg.tag)
      (w_le 4 salt.length ++ (salt ++ pack_header_write (mkEntries opts salt repo)))
      1 opts.encryptAlg.tag 9
      (by simp [headerBytes, hpack, PackAlg.tag, w_u8, List.append_assoc])
      (by simp [MAGIC, w_u8, w_le_length])
  have hsl : salt.length % 4294967296 = salt.length :=
    Nat.mod_eq_of_lt (by norm_num at hsalt; omega)
  have h6 : r_le (headerBytes opts salt ++ pack_header_write (mkEntries opts salt repo))
      10 4 = some (salt.length, 14) := by
    simpa [hsl] using r_le_at (headerBytes opts salt ++ pack_header_write (mkEntries opts salt repo))
      (MAGIC ++ w_u8 1 ++ w_u8 1 ++ w_u8 opts.compressAlg.tag ++ w_u8 opts.encryptAlg.tag)
      (salt ++ pack_header_write (mkEntries opts salt repo))
      4 salt.length 10
      (by simp [headerBytes, hpack, PackAlg.tag, w_u8, List.append_assoc])
      (by simp [MAGIC, w_u8, w_le_length])
  have h7 : r_bytes (headerBytes opts salt ++ pack_header_write (mkEntries opts salt repo))
      14 salt.length = some (salt, 14 + salt.length) := by
    simpa using r_bytes_at (headerBytes opts salt ++ pack_header_write (mkEntries opts salt repo))
      (MAGIC ++ w_u8 1 ++ w_u8 1 ++ w_u8 opts.compressAlg.tag ++ w_u8 opts.encryptAlg.tag
        ++ w_le 4 salt.length)
      salt (pack_header_write (mkEntries opts salt repo)) 14 salt.length
      (by simp [headerBytes, hpack, PackAlg.tag, w_u8, List.append_assoc])
      (by simp [MAGIC, w_u8, w_le_length]) rfl
  have hcnt : (mkEntries opts salt repo).length % 4294967296 = repo.length := by
    rw [hElen]
    exact Nat.mod_eq_of_lt (by norm_num at hcount; omega)
  have h8 : r_le (headerBytes opts salt ++ pack_header_write (mkEntries opts salt repo))
      (14 + salt.length) 4 = some (repo.length, 14 + salt.length + 4) := by
    simpa [hcnt] using r_le_at (headerBytes opts salt ++ pack_header_write (mkEntries opts salt repo))
      (headerBytes opts salt)
      ((mkEntries opts salt repo).map entryBytes).flatten
      4 (mkEntries opts salt repo).length (14 + salt.length)
      (by simp [pack_header_write, List.append_assoc])
      (by rw [headerBytes_length])
  have h9 : read_entries (headerBytes opts salt ++ pack_header_write (mkEntries opts salt repo))
      (14 + salt.length + 4) repo.length =
      some (mkEntries opts salt repo,
        14 + salt.length + 4 + (((mkEntries opts salt repo).map entryBytes).flatten).length) := by
    rw [← hElen]
    exact read_entries_at (mkEntries opts salt repo) (headerBytes opts salt ++ pack_header_write (mkEntries opts salt repo))
      (headerBytes opts salt ++ w_le 4 (mkEntries opts salt repo).length) []
      (14 + salt.length + 4)
      (by simp [pack_header_write, List.append_assoc])
      (by rw [List.length_append, headerBytes_length, w_le_length])
      hEp hEo hEs
  have h10 : decodeEntries opts.compressAlg.tag opts.encryptAlg.tag opts.password salt
      (mkEntries opts salt repo) = some repo := decodeEntries_mkEntries opts salt repo
  unfold import_package_to_repo
  simp [h1, h2, h3, h4, h5, h6, h7, h8, h9, h10, hencNe, MAGIC]

/-- The TocAtEnd import path undoes the TocAtEnd export body. -/
lemma import_toc_branch (repo : List (List Nat × List Nat)) (opts : Options)
    (salt : List Nat)
    (hpack : opts.packAlg = .TocAtEnd)
    (hencNe : ¬(opts.encryptAlg.tag ≠ 0 ∧ opts.password = []))
    (hsalt : salt.length < 2 ^ 32)
    (hcount : repo.length < 2 ^ 32)
    (hpaths : ∀ pr ∈ repo, pr.1.length < 2 ^ 32)
    (hraw : ∀ pr ∈ repo, pr.2.length < 2 ^ 64)
    (hbound : (headerBytes opts salt).length +
      ((mkEntries opts salt repo).map (fun e => e.payload.length)).sum < 2 ^ 64) :
    import_package_to_repo
      (headerBytes opts salt ++
        pack_toc_write (headerBytes opts salt).length (mkEntries opts salt repo))
      opts.password = some repo := by
  have hEp : ∀ e ∈ mkEntries opts salt repo, e.relPath.length < 2 ^ 32 := by
    intro e he
    rw [mkEntries] at he
    obtain ⟨pr, hpr, rfl⟩ := List.mem_map.mp he
    exact hpaths pr hpr
  have hEo : ∀ e ∈ mkEntries opts salt repo, e.originalSize < 2 ^ 64 := by
    intro e he
    rw [mkEntries] at he
    obtain ⟨pr, hpr, rfl⟩ := List.mem_map.mp he
    exact hraw pr hpr
  have hElen : (mkEntries opts salt repo).length = repo.length := mkEntries_length _ _ _
  have htagC : opts.compressAlg.tag % 256 = opts.compressAlg.tag :=
    Nat.mod_eq_of_lt (by cases opts.compressAlg <;> simp [CompressAlg.tag])
  have htagEn : opts.encryptAlg.tag % 256 = opts.encryptAlg.tag :=
    Nat.mod_eq_of_lt (by cases opts.encryptAlg <;> simp [EncryptAlg.tag])
  have hblob : (((mkEntries opts salt repo).map Entry.payload).flatten).length =
      ((mkEntries opts salt repo).map (fun e => e.payload.length)).sum :=
    blobs_length _
  have h1 : r_bytes (headerBytes opts salt ++
      pack_toc_write (headerBytes opts salt).length (mkEntries opts salt repo))
      0 6 = some (MAGIC, 6) := by
    simpa using r_bytes_at (headerBytes opts salt ++
        pack_toc_write (headerBytes opts salt).length (mkEntries opts salt repo))
      [] MAGIC
      (w_u8 1 ++ (w_u8 2 ++ (w_u8 opts.compressAlg.tag ++ (w_u8 opts.encryptAlg.tag ++
        (w_le 4 salt.length ++ (salt ++
          pack_toc_write (headerBytes opts salt).length (mkEntries opts salt repo)))))))
      0 6
      (by simp [headerBytes, hpack, PackAlg.tag, List.append_assoc])
      rfl (by simp [MAGIC])
  have h2 : r_le (headerBytes opts salt ++
      pack_toc_write (headerBytes opts salt).length (mkEntries opts salt repo))
      6 1 = some (1, 7) := by
    simpa using r_le_at (headerBytes opts salt ++
        pack_toc_write (headerBytes opts salt).length (mkEntries opts salt repo))
      MAGIC
      (w_u8 2 ++ (w_u8 opts.compressAlg.tag ++ (w_u8 opts.encryptAlg.tag ++
        (w_le 4 salt.length ++ (salt ++
          pack_toc_write (headerBytes opts salt).length (mkEntries opts salt repo))))))
      1 1 6
      (by simp [headerBytes, hpack, PackAlg.tag, w_u8, List.append_assoc])
      (by simp [MAGIC])
  have h3 : r_le (headerBytes opts salt ++
      pack_toc_write (headerBytes opts salt).length (mkEntries opts salt repo))
      7 1 = some (2, 8) := by
    simpa using r_le_at (headerBytes opts salt ++
        pack_toc_write (headerBytes opts salt).length (mkEntries opts salt repo))
      (MAGIC ++ w_u8 1)
      (w_u8 opts.compressAlg.tag ++ (w_u8 opts.encryptAlg.tag ++
        (w_le 4 salt.length ++ (salt ++
          pack_toc_write (headerBytes opts salt).length (mkEntries opts salt repo)))))
      1 2 7
      (by simp [headerBytes, hpack, PackAlg.tag, w_u8, List.append_assoc])
      (by simp [MAGIC, w_u8, w_le_length])
  have h4 : r_le (headerBytes opts salt ++
      pack_toc_write (headerBytes opts salt).length (mkEntries opts salt repo))
      8 1 = some (opts.compressAlg.tag, 9) := by
    simpa [htagC] using r_le_at (headerBytes opts salt ++
        pack_toc_write (headerBytes opts salt).length (mkEntries opts salt repo))
      (MAGIC ++ w_u8 1 ++ w_u8 2)
      (w_u8 opts.encryptAlg.tag ++ (w_le 4 salt.length ++ (salt ++
        pack_toc_write (headerBytes opts salt).length (mkEntries opts salt repo))))
      1 opts.compressAlg.tag 8
      (by simp [headerBytes, hpack, PackAlg.tag, w_u8, List.append_assoc])
      (by simp [MAGIC, w_u8, w_le_length])
  have h5 : r_le (headerBytes opts salt ++
      pack_toc_write (headerBytes opts salt).length (mkEntries opts salt repo))
      9 1 = some (opts.encryptAlg.tag, 10) := by
    simpa [htagEn] using r_le_at (headerBytes opts salt ++
        pack_toc_write (headerBytes opts salt).length (mkEntries opts salt repo))
      (MAGIC ++ w_u8 1 ++ w_u8 2 ++ w_u8 opts.compressAlg.tag)
      (w_le 4 salt.length ++ (salt ++
        pack_toc_write (headerBytes opts salt).length (mkEntries opts salt repo)))
      1 opts.encryptAlg.tag 9
      (by simp [headerBytes, hpack, PackAlg.tag, w_u8, List.append_assoc])
      (by simp [MAGIC, w_u8, w_le_length])
  have hsl : salt.length % 4294967296 = salt.length :=
    Nat.mod_eq_of_lt (by norm_num at hsalt; omega)
  have h6 : r_le (headerBytes opts salt ++
      pack_toc_write (headerBytes opts salt).length (mkEntries opts salt repo))
      10 4 = some (salt.length, 14) := by
    simpa [hsl] using r_le_at (headerBytes opts salt ++
        pack_toc_write (headerBytes opts salt).length (mkEntries opts salt repo))
      (MAGIC ++ w_u8 1 ++ w_u8 2 ++ w_u8 opts.compressAlg.tag ++ w_u8 opts.encryptAlg.tag)
      (salt ++ pack_toc_write (headerBytes opts salt).length (mkEntries opts salt repo))
      4 salt.length 10
      (by simp [headerBytes, hpack, PackAlg.tag, w_u8, List.append_assoc])
      (by simp [MAGIC, w_u8, w_le_length])
  have h7 : r_bytes (headerBytes opts salt ++
      pack_toc_write (headerBytes opts salt).length (mkEntries opts salt repo))
      14 salt.length = some (salt, 14 + salt.length) := by
    simpa using r_bytes_at (headerBytes opts salt ++
        pack_toc_write (headerBytes opts salt).length (mkEntries opts salt repo))
      (MAGIC ++ w_u8 1 ++ w_u8 2 ++ w_u8 opts.compressAlg.tag ++ w_u8 opts.encryptAlg.tag
        ++ w_le 4 salt.length)
      salt (pack_toc_write (headerBytes opts salt).length (mkEntries opts salt repo))
      14 salt.length
      (by simp [headerBytes, hpack, PackAlg.tag, w_u8, List.append_assoc])
      (by simp [MAGIC, w_u8, w_le_length]) rfl
  have htofflt : (headerBytes opts salt).length +
      (((mkEntries opts salt repo).map Entry.payload).flatten).length < 2 ^ 64 := by
    rw [hblob]
    exact hbound
  have hcomp : (List.map (List.length ∘ Entry.payload) (mkEntries opts salt repo)).sum =
      ((mkEntries opts salt repo).map (fun e => e.payload.length)).sum := rfl
  have htoff : ((headerBytes opts salt).length +
      (List.map (List.length ∘ Entry.payload) (mkEntries opts salt repo)).sum) %
        18446744073709551616 =
      (headerBytes opts salt).length +
        (List.map (List.length ∘ Entry.payload) (mkEntries opts salt repo)).sum := by
    rw [hcomp]
    exact Nat.mod_eq_of_lt (by norm_num at hbound; omega)
  have hitems : ∀ t ∈ toc_items (headerBytes opts salt).length (mkEntries opts salt repo),
      t.relPath.length < 2 ^ 32 ∧ t.originalSize < 2 ^ 64 ∧
        t.offset < 2 ^ 64 ∧ t.storedSize < 2 ^ 64 := by
    intro t ht
    obtain ⟨⟨e, he, hrp, ho, hs⟩, hoffle⟩ := toc_items_mem _ _ t ht
    refine ⟨hrp ▸ hEp e he, ho ▸ hEo e he, ?_, ?_⟩ <;> omega
  have hitemslen :
      (toc_items (headerBytes opts salt).length (mkEntries opts salt repo)).length =
        repo.length := by
    rw [toc_items_length, hElen]
  have hicnt :
      (toc_items (headerBytes opts salt).length (mkEntries opts salt repo)).length %
        4294967296 = repo.length := by
    rw [hitemslen]
    exact Nat.mod_eq_of_lt (by norm_num at hcount; omega)
  have hDlen : (headerBytes opts salt ++
      pack_toc_write (headerBytes opts salt).length (mkEntries opts salt repo)).length =
      (headerBytes opts salt).length +
        ((((mkEntries opts salt repo).map Entry.payload).flatten).length +
          ((toc_block (toc_items (headerBytes opts salt).length
            (mkEntries opts salt repo))).length + 8)) := by
    simp only [pack_toc_write, List.length_append, w_le_length]
    omega
  have hT1 : r_le (headerBytes opts salt ++
      pack_toc_write (headerBytes opts salt).length (mkEntries opts salt repo))
      ((headerBytes opts salt ++
        pack_toc_write (headerBytes opts salt).length (mkEntries opts salt repo)).length - 8)
      8 =
      some ((headerBytes opts salt).length +
        (((mkEntries opts salt repo).map Entry.payload).flatten).length,
        (headerBytes opts salt ++
          pack_toc_write (headerBytes opts salt).length
            (mkEntries opts salt repo)).length - 8 + 8) := by
    simpa [htoff] using r_le_at (headerBytes opts salt ++
        pack_toc_write (headerBytes opts salt).length (mkEntries opts salt repo))
      (headerBytes opts salt ++ (((mkEntries opts salt repo).map Entry.payload).flatten ++
        toc_block (toc_items (headerBytes opts salt).length (mkEntries opts salt repo))))
      [] 8
      ((headerBytes opts salt).length +
        (((mkEntries opts salt repo).map Entry.payload).flatten).length)
      ((headerBytes opts salt ++
        pack_toc_write (headerBytes opts salt).length (mkEntries opts salt repo)).length - 8)
      (by simp [pack_toc_write, List.append_assoc])
      (by simp only [pack_toc_write, List.length_append, w_le_length, List.length_nil]
          omega)
  have hT2 : r_bytes (headerBytes opts salt ++
      pack_toc_write (headerBytes opts salt).length (mkEntries opts salt repo))
      ((headerBytes opts salt).length +
        (((mkEntries opts salt repo).map Entry.payload).flatten).length) 4 =
      some (TOC_MAGIC,
        (headerBytes opts salt).length +
          (((mkEntries opts salt repo).map Entry.payload).flatten).length + 4) := by
    simpa using r_bytes_at (headerBytes opts salt ++
        pack_toc_write (headerBytes opts salt).length (mkEntries opts salt repo))
      (headerBytes opts salt ++ ((mkEntries opts salt repo).map Entry.payload).flatten)
      TOC_MAGIC
      (w_le 4 (toc_items (headerBytes opts salt).length (mkEntries opts salt repo)).length ++
        (((toc_items (headerBytes opts salt).length
            (mkEntries opts salt repo)).map tocItemBytes).flatten ++
          w_le 8 ((headerBytes opts salt).length +
            (((mkEntries opts salt repo).map Entry.payload).flatten).length)))
      ((headerBytes opts salt).length +
        (((mkEntries opts salt repo).map Entry.payload).flatten).length) 4
      (by simp [pack_toc_write, toc_block, List.append_assoc])
      (by simp [List.length_append])
      (by simp [TOC_MAGIC])
  have hT3 : r_le (headerBytes opts salt ++
      pack_toc_write (headerBytes opts salt).length (mkEntries opts salt repo))
      ((headerBytes opts salt).length +
        (((mkEntries opts salt repo).map Entry.payload).flatten).length + 4) 4 =
      some (repo.length,
        (headerBytes opts salt).length +
          (((mkEntries opts salt repo).map Entry.payload).flatten).length + 4 + 4) := by
    simpa [hicnt] using r_le_at (headerBytes opts salt ++
        pack_toc_write (headerBytes opts salt).length (mkEntries opts salt repo))
      (headerBytes opts salt ++ ((mkEntries opts salt repo).map Entry.payload).flatten
        ++ TOC_MAGIC)
      ((((toc_items (headerBytes opts salt).length
          (mkEntries opts salt repo)).map tocItemBytes).flatten ++
        w_le 8 ((headerBytes opts salt).length +
          (((mkEntries opts salt repo).map Entry.payload).flatten).length)))
      4
      (toc_items (headerBytes opts salt).length (mkEntries opts salt repo)).length
      ((headerBytes opts salt).length +
        (((mkEntries opts salt repo).map Entry.payload).flatten).length + 4)
      (by simp [pack_toc_write, toc_block, List.append_assoc])
      (by simp [List.length_append, TOC_MAGIC]; omega)
  have hT4 : read_toc_items (headerBytes opts salt ++
      pack_toc_write (headerBytes opts salt).length (mkEntries opts salt repo))
      ((headerBytes opts salt).length +
        (((mkEntries opts salt repo).map Entry.payload).flatten).length + 4 + 4)
      repo.length =
      some (toc_items (headerBytes opts salt).length (mkEntries opts salt repo),
        (headerBytes opts salt).length +
          (((mkEntries opts salt repo).map Entry.payload).flatten).length + 4 + 4 +
          (((toc_items (headerBytes opts salt).length
            (mkEntries opts salt repo)).map tocItemBytes).flatten).length) := by
    rw [← hitemslen]
    exact read_toc_items_at
      (toc_items (headerBytes opts salt).length (mkEntries opts salt repo))
      (headerBytes opts salt ++
        pack_toc_write (headerBytes opts salt).length (mkEntries opts salt repo))
      (headerBytes opts salt ++ ((mkEntries opts salt repo).map Entry.payload).flatten
        ++ TOC_MAGIC ++
        w_le 4 (toc_items (headerBytes opts salt).length (mkEntries opts salt repo)).length)
      (w_le 8 ((headerBytes opts salt).length +
        (((mkEntries opts salt repo).map Entry.payload).flatten).length))
      ((headerBytes opts salt).length +
        (((mkEntries opts salt repo).map Entry.payload).flatten).length + 4 + 4)
      (by simp [pack_toc_write, toc_block, List.append_assoc])
      (by simp [List.length_append, TOC_MAGIC, w_le_length]; omega)
      hitems
  have hT5 : read_blobs (headerBytes opts salt ++
      pack_toc_write (headerBytes opts salt).length (mkEntries opts salt repo))
      (toc_items (headerBytes opts salt).length (mkEntries opts salt repo)) =
      some ((mkEntries opts salt repo).map Entry.payload) :=
    read_blobs_at (mkEntries opts salt repo)
      (headerBytes opts salt ++
        pack_toc_write (headerBytes opts salt).length (mkEntries opts salt repo))
      (headerBytes opts salt)
      (toc_block (toc_items (headerBytes opts salt).length (mkEntries opts salt repo)) ++
        w_le 8 ((headerBytes opts salt).length +
          (((mkEntries opts salt repo).map Entry.payload).flatten).length))
      (headerBytes opts salt).length
      (by simp [pack_toc_write, List.append_assoc])
      rfl
  have hT : pack_toc_read (headerBytes opts salt ++
      pack_toc_write (headerBytes opts salt).length (mkEntries opts salt repo)) =
      some (toc_items (headerBytes opts salt).length (mkEntries opts salt repo),
        (mkEntries opts salt repo).map Entry.payload) := by
    unfold pack_toc_read
    rw [if_neg (by omega)]
    rw [hT1]
    simp only [Option.bind_eq_bind, Option.some_bind]
    rw [hT2]
    simp only [Option.some_bind]
    rw [if_neg (by simp)]
    rw [hT3]
    simp only [Option.some_bind]
    rw [hT4]
    simp only [Option.some_bind]
    rw [hT5]
    simp only [Option.some_bind]
    rfl
  have h10 : decodeToc opts.compressAlg.tag opts.encryptAlg.tag opts.password salt
      (toc_items (headerBytes opts salt).length (mkEntries opts salt repo))
      ((mkEntries opts salt repo).map Entry.payload) = some repo :=
    decodeToc_mkEntries opts salt (headerBytes opts salt).length repo
  unfold import_package_to_repo
  simp [h1, h2, h3, h4, h5, h6, h7, hT, h10, hencNe, MAGIC]

/-- Export-then-import restores the repository file list, for every layout,
compression and encryption choice. -/
lemma export_import_aux (repo : List (List Nat × List Nat)) (opts : Options)
    (salt : List Nat)
    (hpw : opts.encryptAlg ≠ .None → opts.password ≠ [])
    (hsalt : salt.length < 2 ^ 32)
    (hcount : repo.length < 2 ^ 32)
    (hpaths : ∀ pr ∈ repo, pr.1.length < 2 ^ 32)
    (hraw : ∀ pr ∈ repo, pr.2.length < 2 ^ 64)
    (hbound : (headerBytes opts salt).length +
      ((mkEntries opts salt repo).map (fun e => e.payload.length)).sum < 2 ^ 64) :
    (export_repo_to_package repo opts salt).bind
      (fun pkg => import_package_to_repo pkg opts.password) = some repo := by
  have hcond : ¬(opts.encryptAlg ≠ EncryptAlg.None ∧ opts.password = []) :=
    fun h => hpw h.1 h.2
  have hencNe : ¬(opts.encryptAlg.tag ≠ 0 ∧ opts.password = []) := by
    rintro ⟨t1, t2⟩
    apply hpw ?_ t2
    cases he : opts.encryptAlg
    · rw [he] at t1; simp [EncryptAlg.tag] at t1
    · simp
    · simp
  have hEs : ∀ e ∈ mkEntries opts salt repo, e.payload.length < 2 ^ 64 := by
    intro e he
    have hle : e.payload.length ≤
        ((mkEntries opts salt repo).map (fun e => e.payload.length)).sum :=
      List.single_le_sum (fun x _ => Nat.zero_le x) _
        (List.mem_map_of_mem _ he)
    omega
  unfold export_repo_to_package
  rw [if_neg hcond]
  simp only [Option.bind_eq_bind, Option.some_bind]
  cases hpack : opts.packAlg with
  | HeaderPerFile =>
    rw [if_pos rfl]
    exact import_header_branch repo opts salt hpack hencNe hsalt hcount hpaths hraw hEs
  | TocAtEnd =>
    rw [if_neg (by simp)]
    exact import_toc_branch repo opts salt hpack hencNe hsalt hcount hpaths hraw hbound

end pkg

/-! ## Concrete example values used by the claim witnesses -/

/-- A symlink Metadata value (target `"t"`). -/
def mSymEx : Metadata :=
  { mode := 0, mtime := 0, uid := 0, gid := 0, is_symlink := true,
    symlink_target := [116], file_type := .Symlink }

/-- A symlink Metadata value whose target `":t"` contains a colon. -/
def mColonEx : Metadata :=
  { mode := 0, mtime := 0, uid := 0, gid := 0, is_symlink := true,
    symlink_target := [58, 116], file_type := .Symlink }

/-! ## Claim theorems -/

/-- C1: for every pack layout (HeaderPerFile, TocAtEnd), compression (None,
RLE) and encryption (None, XOR, RC4), with a non-empty password whenever
encryption is on, exporting a repository to a package and importing it back
with the same password reproduces exactly the same relative-path/content
pairs.  The size hypotheses say the package's length-prefix fields fit their
fixed-width encodings (paths and entry count in `u32`, sizes and offsets in
`u64`), which holds for every package the program can actually produce. -/
theorem C1_package_roundtrip (repo : List (List Nat × List Nat))
    (opts : pkg.Options) (salt : List Nat)
    (hpw : opts.encryptAlg ≠ .None → opts.password ≠ [])
    (hsalt : salt.length < 2 ^ 32)
    (hcount : repo.length < 2 ^ 32)
    (hpaths : ∀ pr ∈ repo, pr.1.length < 2 ^ 32)
    (hraw : ∀ pr ∈ repo, pr.2.length < 2 ^ 64)
    (hbound : (pkg.headerBytes opts salt).length +
      ((pkg.mkEntries opts salt repo).map (fun e => e.payload.length)).sum < 2 ^ 64) :
    (pkg.export_repo_to_package repo opts salt).bind
      (fun p => pkg.import_package_to_repo p opts.password) = some repo :=
  pkg.export_import_aux repo opts salt hpw hsalt hcount hpaths hraw hbound

/-- Witness for C1 at a one-file repository (`"a"` ↦ `"hi"`). -/
theorem C1_package_roundtrip_witness :
    (pkg.export_repo_to_package [([97], [104, 105])] {} []).bind
      (fun p => pkg.import_package_to_repo p ({} : pkg.Options).password) =
      some [([97], [104, 105])] :=
  C1_package_roundtrip [([97], [104, 105])] {} [] (by decide) (by decide)
    (by decide) (by decide) (by decide) (by decide)

/-- C2 counterexample: `deserialize (serialize m)` does not restore
`file_type` — serialization omits it, so a symlink record round-trips into a
value whose `file_type` is the default `Regular`, not `Symlink`. -/
theorem C2_counterexample :
    (Metadata.deserialize {} mSymEx.serialize).isSome = true ∧
      Metadata.deserialize {} mSymEx.serialize ≠ some mSymEx := by decide

/-- C2 (amended): `deserialize (serialize m)` succeeds and restores exactly
the six serialized fields — mode, mtime, uid, gid, is_symlink and
symlink_target (colons and emptiness included) — while `file_type` (and the
reserved device numbers) keep the values the target record had before the
call, because `serialize` never writes them. -/
theorem C2_metadata_roundtrip (m₀ m : Metadata)
    (hmode : m.mode < 2 ^ 32) (huid : m.uid < 2 ^ 32) (hgid : m.gid < 2 ^ 32)
    (hmt1 : -(2 ^ 63) ≤ m.mtime) (hmt2 : m.mtime < 2 ^ 63) :
    Metadata.deserialize m₀ m.serialize =
      some { m₀ with
        mode := m.mode, mtime := m.mtime, uid := m.uid, gid := m.gid,
        is_symlink := m.is_symlink, symlink_target := m.symlink_target } :=
  deserialize_serialize m₀ m hmode huid hgid hmt1 hmt2

/-- Witness for C2 on a symlink record whose target contains a colon. -/
theorem C2_metadata_roundtrip_witness :
    Metadata.deserialize {} mColonEx.serialize =
      some { ({} : Metadata) with
        mode := mColonEx.mode, mtime := mColonEx.mtime, uid := mColonEx.uid,
        gid := mColonEx.gid, is_symlink := mColonEx.is_symlink,
        symlink_target := mColonEx.symlink_target } :=
  C2_metadata_roundtrip {} mColonEx (by decide) (by decide) (by decide)
    (by decide) (by decide)

/-- C3 counterexample: `deserialize` accepts `"0:0:0:0:1:"` and produces a
value with `is_symlink = true`, `file_type = Regular` and an empty
`symlink_target`, violating both claimed invariants. -/
theorem C3_counterexample :
    (Metadata.deserialize ({} : Metadata)
        [48, 58, 48, 58, 48, 58, 48, 58, 49, 58]).map
      (fun m => (m.is_symlink, m.file_type, m.symlink_target)) =
      some (true, FileType.Regular, []) := by decide

/-- C3 (amended): `deserialize` never writes `file_type` — every accepted
input leaves it at the value the record had before the call — and it enforces
no link between `is_symlink`, `symlink_target` and `file_type`, so the
claimed invariants do not hold for deserialized values. -/
theorem C3_deserialize_file_type (m₀ : Metadata) (data : List Nat) (m' : Metadata)
    (h : Metadata.deserialize m₀ data = some m') :
    m'.file_type = m₀.file_type :=
  (deserialize_shape m₀ data m' h).1

/-- Witness for C3 at `"0:0:0:0:0:"`. -/
theorem C3_deserialize_file_type_witness :
    (({} : Metadata)).file_type = (({} : Metadata)).file_type :=
  C3_deserialize_file_type {} [48, 58, 48, 58, 48, 58, 48, 58, 48, 58] {}
    (by decide)

/-- C4 counterexample: `isBackupSupported` returns `false` for `Fifo`, where
the claim says `true`. -/
theorem C4_counterexample : isBackupSupported FileType.Fifo = false := rfl

/-- C4 (amended): `isBackupSupported` returns `true` exactly for
`{Regular, Directory, Symlink}`; for `Fifo`, `BlockDevice`,
`CharacterDevice` and `Socket` it returns `false`. -/
theorem C4_isBackupSupported (t : FileType) :
    isBackupSupported t =
      decide (t = .Regular ∨ t = .Directory ∨ t = .Symlink) := by
  cases t <;> rfl

/-- C5: RLE decompression undoes RLE compression on every byte string, and
every emitted count byte lies in `[1, 255]` (never `0`). -/
theorem C5_rle_invariants (l : List Nat) :
    pkg.rle_decompress (pkg.rle_compress l) = some l ∧
      ∀ c ∈ pkg.pairCounts (pkg.rle_compress l), 1 ≤ c ∧ c ≤ 255 :=
  ⟨pkg.rle_decompress_compress l, pkg.rle_compress_counts l⟩

/-- Witness for C5 at the byte string `[7, 9]`. -/
theorem C5_rle_invariants_witness :
    pkg.rle_decompress (pkg.rle_compress [7, 9]) = some [7, 9] ∧
      (1 ≤ 1 ∧ 1 ≤ 255) := by
  refine ⟨(C5_rle_invariants [7, 9]).1, (C5_rle_invariants [7, 9]).2 1 ?_⟩
  simp [pkg.rle_compress, pkg.runLen, pkg.pairCounts]

/-- C6: both stream ciphers are involutions — applying `xor_crypt` (resp.
`rc4_crypt`) twice with the same password and salt restores the input. -/
theorem C6_cipher_involutions (x password salt : List Nat) :
    pkg.xor_crypt (pkg.xor_crypt x password salt) password salt = x ∧
      pkg.rc4_crypt (pkg.rc4_crypt x password salt) password salt = x := by
  constructor
  · unfold pkg.xor_crypt
    exact pkg.xor_crypt_aux_involution x _
  · unfold pkg.rc4_crypt
    exact pkg.prga_involution x _ 0 0

/-- C7 counterexample: the `backup_restore_project/cpp_src` variant of
`storeFile` does copy a body into `data/` for a symlink entry, and returns
`false` without recording metadata when that copy fails. -/
theorem C7_counterexample :
    (storeFile_v2 [] [115] [108] mSymEx true).bodyCopies =
        [([115], getStoragePath [108])] ∧
      (storeFile_v2 [] [115] [108] mSymEx false).ok = false ∧
      (storeFile_v2 [] [115] [108] mSymEx false).index = [] := by decide

/-- C7 (amended): in the `src/src` variant, storing a symlink entry records
the metadata in the in-memory index and returns `true` with no body copy into
`data/`; the `backup_restore_project` variant instead copies the symlink body
like a regular file, so the claim holds only for the `src/src` variant. -/
theorem C7_store_symlink_metadata_only
    (idx : List (List Nat × Metadata)) (source rel : List Nat)
    (meta : Metadata) (copyOk : Bool)
    (h : meta.file_type = .Symlink ∨ meta.is_symlink = true) :
    storeFile idx source rel meta copyOk = ⟨mapInsert idx rel meta, [], true⟩ := by
  unfold storeFile
  rw [if_pos (by rcases h with h | h; exact Or.inl h; exact Or.inr (by simp [h]))]

/-- Witness for C7 at a concrete symlink entry. -/
theorem C7_store_symlink_metadata_only_witness :
    storeFile [] [115] [108] mSymEx true = ⟨mapInsert [] [108] mSymEx, [], true⟩ :=
  C7_store_symlink_metadata_only [] [115] [108] mSymEx true (by decide)

/-- C8 counterexample: `deserialize` accepts `"1a:2:3:4:0:"` even though the
mode field `"1a"` is not a decimal integer — `std::stoul` parses the prefix
`1` and ignores the trailing junk. -/
theorem C8_counterexample :
    (Metadata.deserialize ({} : Metadata)
      [49, 97, 58, 50, 58, 51, 58, 52, 58, 48, 58]).isSome = true := by decide

/-- C8 (amended): `deserialize` splits on the first five colons, takes the
sixth field as the entire remainder, and fails on every input with fewer than
five colons; but a numeric field is parsed by `stoul`/`stoll`/`stoi` prefix
semantics, so fields with a valid integer prefix followed by junk are
accepted — rejection happens only when a field lacks a parsable integer
prefix or overflows, or when the fifth field's value is not 0 or 1. -/
theorem C8_deserialize_split (m₀ : Metadata) (data : List Nat) :
    (afterColons 5 data = none → Metadata.deserialize m₀ data = none) ∧
      ∀ m', Metadata.deserialize m₀ data = some m' →
        afterColons 5 data = some m'.symlink_target :=
  ⟨deserialize_too_few_colons m₀ data,
    fun m' h => (deserialize_shape m₀ data m' h).2.1⟩

/-- Witness for C8: no colon at all fails; a well-formed line's sixth field
is the remainder. -/
theorem C8_deserialize_split_witness :
    Metadata.deserialize ({} : Metadata) [48] = none ∧
      afterColons 5 [48, 58, 48, 58, 48, 58, 48, 58, 48, 58] =
        some (({} : Metadata)).symlink_target :=
  ⟨(C8_deserialize_split {} [48]).1 (by decide),
    (C8_deserialize_split {} [48, 58, 48, 58, 48, 58, 48, 58, 48, 58]).2 {}
      (by decide)⟩

/-- C9 counterexample: storing path `"b"` then path `"a"` produces index
lines in sorted order (`a` before `b`), not the insertion order (`b` first) —
the in-memory index is a `std::map` ordered by key. -/
theorem C9_counterexample :
    saveIndex (mapInsert (mapInsert [] [98] {}) [97] {}) =
        [[97] ++ 9 :: Metadata.serialize {}, [98] ++ 9 :: Metadata.serialize {}] ∧
      [[97] ++ 9 :: Metadata.serialize {}, [98] ++ 9 :: Metadata.serialize {}] ≠
        [[98] ++ 9 :: Metadata.serialize {}, [97] ++ 9 :: Metadata.serialize {}] := by
  decide

/-- C9 (amended): `saveIndex` writes exactly one `path \t metadata` line per
in-memory entry, in the `std::map`'s iteration order, which is ascending
path-key order — not the insertion order of the store calls: every index
reachable by a sequence of writes from the empty map has strictly ascending
keys, and the emitted lines follow that order entry by entry. -/
theorem C9_saveIndex_order (ops : List (List Nat × Metadata)) :
    (saveIndex (ops.foldl (fun acc p => mapInsert acc p.1 p.2) [])).length =
        (ops.foldl (fun acc p => mapInsert acc p.1 p.2) []).length ∧
      List.Chain' (fun a b => keyLt a.1 b.1 = true)
        (ops.foldl (fun acc p => mapInsert acc p.1 p.2) []) := by
  constructor
  · simp [saveIndex]
  · exact foldl_mapInsert_chain' ops [] (by simp)

/-- C10 counterexample: the include list contains the empty pattern, yet for
path `"x"` with exclude list `["/"]` the decision is a defined `false` — the
exclude `"/"` matches every path (its directory prefix is empty), so
`matchesPattern` is never reached on the empty include. -/
theorem C10_counterexample :
    (([] : List Nat) ∈ [([] : List Nat)]) ∧
      shouldInclude [[]] [[47]] [120] = some false := by decide

/-- C10 (amended): `shouldInclude` returns a defined boolean whenever every
include and exclude pattern is non-empty; an empty pattern makes the decision
undefined exactly when it is consulted — include `[""]` with no excludes is
undefined (the `pattern.back()` read) for every path — but a pattern list
containing the empty string can still yield a defined decision when an
earlier exclude match short-circuits. -/
theorem C10_shouldInclude_totality (includes excludes : List (List Nat))
    (path : List Nat) :
    ((∀ p ∈ includes, p ≠ []) → (∀ p ∈ excludes, p ≠ []) →
      (shouldInclude includes excludes path).isSome = true) ∧
      shouldInclude [[]] [] path = none := by
  constructor
  · intro hinc hexc
    unfold shouldInclude
    split
    · rfl
    · have hex := anyMatch_total path excludes hexc
      cases hm : anyMatch path excludes with
      | none => rw [hm] at hex; exact absurd hex (by simp)
      | some b =>
        simp only [Option.bind_eq_bind, Option.some_bind]
        cases b with
        | true => rfl
        | false =>
          simp only [Bool.false_eq_true, if_false]
          split
          · rfl
          · exact anyMatch_total path includes hinc
  · rfl

/-- Witness for C10: defined for all-non-empty lists; undefined for the
consulted empty include. -/
theorem C10_shouldInclude_totality_witness :
    (shouldInclude [[104]] [[47]] [120]).isSome = true ∧
      shouldInclude [[]] [] [120] = none :=
  ⟨(C10_shouldInclude_totality [[104]] [[47]] [120]).1 (by decide) (by decide),
    (C10_shouldInclude_totality [[104]] [[47]] [120]).2⟩

end BackupRestore
